import Mathlib

/-!
Verification development for the `dennwc/webidl` WebIDL parser.

The embedding follows the Go sources:
 * `parser/lex_def.go` — the language-specific scanner state functions
   (`performLexSource`, `lexSinglelineComment`, `lexIdentifierOrKeyword`,
   `lexStringLiteral`).
 * `parser/parser_rules.go` — the grammar rules (`Parse`, `consumeTopLevel`,
   `consumeType`, `consumeEnum`, ...).
 * `parser/parser.go` — the parse driver (`consumeToken`, `consume`,
   `tryConsume`, `emitError`, the node stack).
 * `ast/ast.go` — the tree node types.

Modelling conventions:
 * Source text is a `List Char`; positions are rune indices (the Go code uses
   byte offsets into a UTF-8 string; on the rune level the two are isomorphic
   and no claim distinguishes them).
 * The generic scanner driver (`lex.go`: `next`, `backup`, `peek`, `emit`,
   `accept`, `acceptString`, `errorf`, `buildLexUntil`) is not among the
   provided sources; it is modelled from the spec ("the scanner is a chain of
   scanning-state functions; each reads the next rune", "kind = error, value =
   diagnostic text ... scanning halts; no token is emitted after an error")
   and from the template-lexer design the file header cites: reading at end of
   input yields a sentinel rune of width 0 without advancing, `emit` produces
   the substring between the previous emit and the current position, and a
   failed `acceptString` backs up once per rune compared, each step undoing
   the width of the most recent read.
 * Node `Base` decoration is kept only for its `Errors` field. `Start`/`End`
   rune offsets and attached comments are position/presentation metadata that
   no claim under consideration mentions, so they are not threaded through.
 * Formatted diagnostic payloads (`%v`/`%#U` renderings of tokens) are elided:
   each `emitError` site gets a fixed message constant, except where the Go
   code forwards a token's text verbatim (`p.emitError("%s", value)`), which
   is modelled verbatim.
 * Recursion is step-indexed: `Interp` collects one "fuel level" of every
   recursive routine, `interpStep` builds level `n+1` from level `n` (each
   body's recursive calls go through the previous level), and `interp fuel`
   iterates `interpStep` from the everywhere-`none` level 0 by `Nat.rec`.
   Out of fuel is `none`, so genuine divergence of the Go code is expressible
   as "`none` for every fuel" while every terminating run is reached by a
   large enough fuel.  Each routine also has a top-level wrapper carrying its
   Go name, e.g. `consumeType fuel st = (interp fuel).consumeType st`.
-/

namespace WebIDL

/-- Source text: the input as a list of runes. -/
abbrev Str := List Char

/-- `tokenType` from `lex_def.go` (the `tokenTypeNumber` kind is declared there
but no scanner branch ever emits it). -/
inductive TokenKind where
  | error
  | eof
  | whitespace
  | comment
  | identifier
  | string
  | number
  | leftBrace
  | rightBrace
  | leftParen
  | rightParen
  | leftBracket
  | rightBracket
  | leftTri
  | rightTri
  | equals
  | semicolon
  | comma
  | questionMark
  | colon
  | variadic
  deriving DecidableEq, Repr

/-- `lexeme` from `lex.go`: kind, start position, matched text (or, for
error tokens, the diagnostic text). -/
structure Lexeme where
  kind : TokenKind
  position : Nat
  value : Str
  deriving DecidableEq, Repr

/-- `ast.ErrorNode` (its `Base` carries no information a claim needs). -/
structure ErrorNode where
  Message : Str
  deriving DecidableEq, Repr

/-- A node's attached errors: the `Errors` field of `ast.Base`. -/
abbrev Errs := List ErrorNode

/-- `isSpace` from the scanner driver, modelled from the spec's
"whitespace and newlines each emit a single-rune whitespace token". -/
def isSpace (c : Char) : Bool := c = ' ' || c = '\t'

/-- `isNewline` from the scanner driver. -/
def isNewline (c : Char) : Bool := c = '\r' || c = '\n'

/-- `isAlphaNumeric` from the scanner driver, modelled from the spec's
"identifiers/keywords: any maximal run of alphanumeric runes" (ASCII
letters and digits, plus underscore). -/
def isAlphaNumeric (c : Char) : Bool := c = '_' || c.isAlphanum

/-- `l.source[a:b]`: the slice of the source between two positions. -/
def sliceAt (src : Str) (a b : Nat) : Str := (src.drop a).take (b - a)

/-- The position at which `buildLexUntil` resumes after
`l.acceptString("//")` inside `lexSinglelineComment`.  `pos` is the index just
after the initial `/` consumed by `performLexSource`.  A mismatch backs up
once per rune compared, each backup undoing the width of the most recent
read (width 0 at end of input), exactly as in the scanner driver. -/
def commentScanStart (src : Str) (pos : Nat) : Nat :=
  match src.get? pos with
  | some c1 =>
    if c1 = '/' then
      match src.get? (pos + 1) with
      | some c2 => if c2 = '/' then pos + 2 else pos
      | none => pos + 1
    else pos
  | none => pos

/-- Diagnostic text of `l.errorf("unrecognized character at this location:
%#U", r)` (the `%#U` rendering is elided to the rune itself). -/
def msgUnrecognized (c : Char) : Str :=
  "unrecognized character at this location: ".toList ++ [c]

/-! ## The tree model (`ast/ast.go`)

Node bases keep only their `Errors` list (see the header comment).  The
`Literal` node follows `consumeLiteral` in `parser/parser.go`: a base plus the
matched token text. -/

/-- `ast.Literal` as built by `consumeLiteral`. -/
structure Literal where
  Errors : Errs
  Value : Str

/-- `ast.Type`, the tagged type variants.  `nullable`'s argument is the
wrapped type. -/
inductive Ty where
  | anyT (Errors : Errs)
  | sequence (Errors : Errs) (Elem : Ty)
  | recordT (Errors : Errs) (Key : Ty) (Elem : Ty)
  | union (Errors : Errs) (Types : List Ty)
  | nullable (Errors : Errs) (Inner : Ty)
  | parametrized (Errors : Errs) (Name : Str) (Elems : List Ty)
  | typeName (Errors : Errs) (Name : Str)

/-- `*otyp.NodeBase() = *base` in `consumeType`: replace the node's own base
(here: its error list), keeping its children. -/
def Ty.setBase (e : Errs) : Ty → Ty
  | .anyT _ => .anyT e
  | .sequence _ t => .sequence e t
  | .recordT _ k v => .recordT e k v
  | .union _ ts => .union e ts
  | .nullable _ t => .nullable e t
  | .parametrized _ n ts => .parametrized e n ts
  | .typeName _ n => .typeName e n

mutual
/-- `ast.Annotation`. -/
inductive Annotation where
  | mk (Errors : Errs) (Name : Str) (Value : Str) (Values : List Str)
      (Parameters : List Parameter)

/-- `ast.Parameter`. -/
inductive Parameter where
  | mk (Errors : Errs) (Optional : Bool) (Ty : Ty) (Variadic : Bool)
      (Name : Str) (Init : Option Literal) (Annotations : List Annotation)
end

def Annotation.Parameters : Annotation → List Parameter
  | .mk _ _ _ _ p => p

def Parameter.Ty : Parameter → Ty
  | .mk _ _ t _ _ _ _ => t

def Parameter.Annotations : Parameter → List Annotation
  | .mk _ _ _ _ _ _ a => a

/-- `ast.Member`. -/
structure Member where
  Errors : Errs
  Name : Str
  Ty : Ty
  Init : Option Literal
  Attribute : Bool
  Static : Bool
  Const : Bool
  Readonly : Bool
  Required : Bool
  Specialization : Str
  Parameters : List Parameter
  Annotations : List Annotation

/-- `ast.CustomOp`. -/
structure CustomOp where
  Errors : Errs
  Name : Str

/-- `ast.Iterable` (`Key` is set only by the two-type `iterable<K, V>` form). -/
structure Iterable where
  Errors : Errs
  Key : Option Ty
  Elem : Ty

/-- `ast.Decl`, the tagged top-level declaration variants.  `iface`'s first
Bool is the `Partial` flag, the second the `Callback` flag. -/
inductive Decl where
  | iface (Errors : Errs) (IsPartial : Bool) (IsCallback : Bool) (Name : Str)
      (Inherits : Str) (Annotations : List Annotation) (Members : List Member)
      (CustomOps : List CustomOp) (Iter : Option Iterable)
  | mixin (Errors : Errs) (Name : Str) (Inherits : Str)
      (Annotations : List Annotation) (Members : List Member)
      (CustomOps : List CustomOp) (Iter : Option Iterable)
  | dictionary (Errors : Errs) (IsPartial : Bool) (Name : Str) (Inherits : Str)
      (Annotations : List Annotation) (Members : List Member)
  | enum (Errors : Errs) (Annotations : List Annotation) (Name : Str)
      (Values : List Literal)
  | typedef (Errors : Errs) (Annotations : List Annotation) (Name : Str)
      (T : Ty)
  | callbackDecl (Errors : Errs) (Name : Str) (Return : Ty)
      (Parameters : List Parameter)
  | implementation (Errors : Errs) (Name : Str) (Source : Str)
  | includes (Errors : Errs) (Name : Str) (Source : Str)

/-- `ast.File`, the root node. -/
structure File where
  Errors : Errs
  Declarations : List Decl

/-! ## The parse driver (`parser/parser.go`) -/

/-- `sourceParser`'s state: the (lazily pulled) scanner position, whether the
scanner has halted, the current token, and the stack of open nodes (each open
node is its accumulated error list, innermost first; this is the construction
stack of `p.node`/`p.emitError`). -/
structure PState where
  src : Str
  pos : Nat
  halted : Bool
  cur : Lexeme
  stack : List (List ErrorNode)

/-- The zero-value `lexeme{}` (kind 0 is `tokenTypeError`): what a pull past
the halted scanner yields.  Modelled from the spec: "no token is emitted
after an error"; the stream stays stuck on an error-kind token. -/
def zeroLexeme : Lexeme := { kind := .error, position := 0, value := [] }

/-- The failure sentinel `lexeme{tokenTypeError, -1, ""}` returned by
`tryConsumeWithComments` (its position is never observed; 0 here). -/
def sentinelLexeme : Lexeme := { kind := .error, position := 0, value := [] }

/-- The parser's ignored token kinds (whitespace and comment, from the
`parserConfig` in `Parse`). -/
def isIgnored (k : TokenKind) : Bool := k = .whitespace || k = .comment

/-- `isToken`: does the current token match one of the kinds. -/
def PState.isToken (st : PState) (kinds : List TokenKind) : Bool :=
  kinds.contains st.cur.kind

/-- `isIdentifier`: is the current token an identifier with the given text. -/
def PState.isIdentifier (st : PState) (name : Str) : Bool :=
  st.cur.kind = .identifier && st.cur.value = name

/-- `p.emitError`: append an error node to the currently open node (the top
of the construction stack; the stack is never empty while rules run, since
`consumeTopLevel` opens the `File` first). -/
def emitError (msg : Str) (st : PState) : PState :=
  match st.stack with
  | [] => st
  | es :: rest => { st with stack := (ErrorNode.mk msg :: es) :: rest }

/-- `p.node(n)`: open a node — push a fresh error slot. -/
def openNode (st : PState) : PState :=
  { st with stack := [] :: st.stack }

/-- The completion action returned by `p.node(n)`: pop the slot and hand the
collected errors back (in emission order) to be stored in the node's base. -/
def closeNode (st : PState) : Errs × PState :=
  match st.stack with
  | [] => ([], st)
  | es :: rest => (es.reverse, { st with stack := rest })

/-! ## Keyword texts and elided diagnostic messages -/

def kwAny : Str := "any".toList
def kwSequence : Str := "sequence".toList
def kwRecord : Str := "record".toList
def kwOr : Str := "or".toList
def kwOptional : Str := "optional".toList
def kwInterface : Str := "interface".toList
def kwPartial : Str := "partial".toList
def kwCallback : Str := "callback".toList
def kwDictionary : Str := "dictionary".toList
def kwEnum : Str := "enum".toList
def kwTypedef : Str := "typedef".toList
def kwMixin : Str := "mixin".toList
def kwImplements : Str := "implements".toList
def kwIncludes : Str := "includes".toList
def kwSerializer : Str := "serializer".toList
def kwJsonifier : Str := "jsonifier".toList
def kwStringifier : Str := "stringifier".toList
def kwIterable : Str := "iterable".toList
def kwGetter : Str := "getter".toList
def kwSetter : Str := "setter".toList
def kwDeleter : Str := "deleter".toList
def kwConst : Str := "const".toList
def kwStatic : Str := "static".toList
def kwReadonly : Str := "readonly".toList
def kwRequired : Str := "required".toList
def kwAttribute : Str := "attribute".toList

/-- Message of `consume`'s "Expected one of: %v, found: %v" (payload elided). -/
def msgExpectedOneOf : Str := "Expected one of".toList

/-- Message of "Expected identifier, found token %v" (payload elided). -/
def msgExpectedIdentifier : Str := "Expected identifier".toList

/-- Message of "Expected keyword %s, found token %v" (payload elided). -/
def msgExpectedKeyword : Str := "Expected keyword".toList

/-- Message of "Expected semicolon, got: %v" (payload elided). -/
def msgExpectedSemicolon : Str := "Expected semicolon".toList

/-- Message of "Unexpected token at root level: %v" (payload elided). -/
def msgUnexpectedRoot : Str := "Unexpected token at root level".toList

/-- Message of "Expected interface or dictionary, got: %v" (payload elided). -/
def msgExpectedIfaceOrDict : Str := "Expected interface or dictionary".toList

/-- `expandedTypeKeywords`: the fixed two-word primitive prefix table
(note the `"unsigned long"` row). -/
def expandedTypeKeywords (nm : Str) : Option (List Str) :=
  if nm = "unsigned".toList then some ["short".toList, "long".toList]
  else if nm = "long".toList then some ["long".toList]
  else if nm = "unsigned long".toList then some ["long".toList]
  else if nm = "unrestricted".toList then some ["float".toList, "double".toList]
  else none

/-! ## One fuel level of every recursive routine

`Interp` holds, for a given fuel level, every routine of the scanner and the
parser that the Go code writes as a loop or a (mutual) recursion.  Level 0
answers `none` everywhere; `interpStep` builds level `n+1` from level `n`,
each body routing its recursive calls through the previous level. -/

structure Interp where
  scanIdentEnd : Str → Nat → Option Nat
  scanStringEnd : Str → Bool → Nat → Option Nat
  findLineEnd : Str → Nat → Option Nat
  lexNext : Str → Nat → Option (Lexeme × Nat × Bool)
  scanTokens : Str → Nat → Option (List Lexeme)
  consumeToken : PState → Option PState
  nextToken : PState → Option Lexeme
  expandLoop : PState → Str → Option (Str × PState)
  consumeType : PState → Option (Ty × PState)
  consumeTypeBranch : PState → Option (Ty × PState)
  unionTypesLoop : PState → List Ty → Option (List Ty × PState)
  prElemsLoop : PState → List Ty → Option (List Ty × PState)
  identListLoop : PState → List Str → Option (List Str × PState)
  tryConsumeIdentifiersList : PState → Option (Option (List Str) × PState)
  tryConsumeDefaultValue : PState → Option (Option Literal × PState)
  tryConsumeAnnotations : PState → Option (List Annotation × PState)
  annGroupsLoop : PState → List Annotation → Option (List Annotation × PState)
  annPartsLoop : PState → List Annotation → Option (List Annotation × PState)
  consumeAnnotationPart : PState → Option ( Annotation × PState)
  consumeParameters : PState → Option (List Parameter × PState)
  paramsLoop : PState → List Parameter → Option (List Parameter × PState)
  consumeParameter : PState → Option (Parameter × PState)
  consumeMember : Bool → PState → Option (Member × PState)
  enumLoop : PState → List Literal → Option (List Literal × PState)
  consumeEnum : List Annotation → PState → Option (Decl × PState)
  consumeTypedef : List Annotation → PState → Option (Decl × PState)
  interfaceMemberStep : PState → List Member → List CustomOp → Option Iterable →
    Option (List Member × List CustomOp × Option Iterable × PState)
  interfaceBody : PState → List Member → List CustomOp → Option Iterable →
    Option (List Member × List CustomOp × Option Iterable × PState)
  consumeInterface : Bool → Bool → List Annotation → PState → Option (Decl × PState)
  mixinMemberStep : PState → List Member → List CustomOp → Option Iterable →
    Option (List Member × List CustomOp × Option Iterable × PState)
  mixinBody : PState → List Member → List CustomOp → Option Iterable →
    Option (List Member × List CustomOp × Option Iterable × PState)
  consumeMixin : List Annotation → PState → Option (Decl × PState)
  consumeInterfaceOrMixin : List Annotation → PState → Option (Decl × PState)
  dictLoop : PState → List Member → Option (List Member × PState)
  consumeDictionary : List Annotation → PState → Option (Decl × PState)
  skipUntil : List TokenKind → PState → Option PState
  consumeDeclaration : PState → Option (Decl × PState)
  topLoop : PState → List Decl → Option (File × PState)
  consumeTopLevel : PState → Option (File × PState)

/-! ## Non-recursive driver helpers over a fuel level

The Go counterparts of these functions contain no loop; inside a body at
fuel level `n+1` they run against the previous level `I = interp n`, exactly
as the fuel-per-call discipline prescribes. -/

/-- One pull from the scanner into the parser (`p.lex.nextToken()`). -/
def pullTokenI (I : Interp) (st : PState) : Option (Lexeme × PState) :=
  if st.halted then some (zeroLexeme, st)
  else
    match I.lexNext st.src st.pos with
    | none => none
    | some (t, pos', h) => some (t, { st with pos := pos', halted := h })

/-- `tryConsume`: consume the current token if it matches; returns
(matched?, the token, state). -/
def tryConsumeI (I : Interp) (kinds : List TokenKind) (st : PState) :
    Option (Bool × Lexeme × PState) :=
  if st.isToken kinds then
    match I.consumeToken st with
    | none => none
    | some st' => some (true, st.cur, st')
  else some (false, sentinelLexeme, st)

/-- `consume`: like `tryConsume` but emits an error node on mismatch. -/
def consumeI (I : Interp) (kinds : List TokenKind) (st : PState) :
    Option (Bool × Lexeme × PState) :=
  match tryConsumeI I kinds st with
  | none => none
  | some (true, tok, st') => some (true, tok, st')
  | some (false, tok, st') => some (false, tok, emitError msgExpectedOneOf st')

/-- `tryConsumeIdentifier`: returns the identifier's text when the current
token is one. -/
def tryConsumeIdentifierI (I : Interp) (st : PState) : Option (Option Str × PState) :=
  if st.cur.kind = .identifier then
    match I.consumeToken st with
    | none => none
    | some st' => some (some st.cur.value, st')
  else some (none, st)

/-- `consumeIdentifier`: an expected identifier, or an error node and "". -/
def consumeIdentifierI (I : Interp) (st : PState) : Option (Str × PState) :=
  match tryConsumeIdentifierI I st with
  | none => none
  | some (some v, st') => some (v, st')
  | some (none, st') => some ([], emitError msgExpectedIdentifier st')

/-- `tryConsumeKeyword`: consume the current token when it is an identifier
with the given text. -/
def tryConsumeKeywordI (I : Interp) (w : Str) (st : PState) : Option (Bool × PState) :=
  if st.isIdentifier w then
    match I.consumeToken st with
    | none => none
    | some st' => some (true, st')
  else some (false, st)

/-- `consumeKeyword`: like `tryConsumeKeyword` but emits an error on miss. -/
def consumeKeywordI (I : Interp) (w : Str) (st : PState) : Option (Bool × PState) :=
  match tryConsumeKeywordI I w st with
  | none => none
  | some (true, st') => some (true, st')
  | some (false, st') => some (false, emitError msgExpectedKeyword st')

/-- `consumeLiteral` (`parser/parser.go`): an identifier's text, or a string
token's text, or an error-carrying empty literal.  On the string path a
failed `consume` emits its own error and the function adds a second one. -/
def consumeLiteralI (I : Interp) (st : PState) : Option (Literal × PState) :=
  let st := openNode st
  match tryConsumeIdentifierI I st with
  | none => none
  | some (some v, st) =>
    let (errs, st) := closeNode st
    some ({ Errors := errs, Value := v }, st)
  | some (none, st) =>
    match consumeI I [.string] st with
    | none => none
    | some (ok, tok, st) =>
      let st := if ok then st else emitError msgExpectedIdentifier st
      let (errs, st) := closeNode st
      some ({ Errors := errs, Value := if ok then tok.value else [] }, st)

/-! ## One-step bodies

Each `...F` definition is the direct translation of the corresponding Go
function; `I` stands for the previous fuel level, through which every
recursive call and every driver helper runs. -/

/-- The scan of `lexIdentifierOrKeyword`: advance while the current rune is
alphanumeric, return the end position. -/
def scanIdentEndF (I : Interp) (src : Str) (pos : Nat) : Option Nat :=
  match src.get? pos with
  | some c => if isAlphaNumeric c then I.scanIdentEnd src (pos + 1) else some pos
  | none => some pos

/-- The scan of `lexStringLiteral` after the opening quote: Go peeks a rune,
stops after an unescaped closing quote, otherwise flips the escape state and
advances.  At end of input the peek yields the EOF sentinel (never `"`), the
escape state becomes false and the advance is a no-op, so the loop never
terminates: that is the `none`-for-every-fuel case. -/
def scanStringEndF (I : Interp) (src : Str) (esc : Bool) (pos : Nat) : Option Nat :=
  match src.get? pos with
  | none => I.scanStringEnd src false pos
  | some c =>
    if c = '"' && !esc then some (pos + 1)
    else I.scanStringEnd src (c = '\\' && !esc) (pos + 1)

/-- The scan of `buildLexUntil` with `lexSinglelineComment`'s checker: advance
until a newline or the end of input, leaving the terminator unconsumed. -/
def findLineEndF (I : Interp) (src : Str) (pos : Nat) : Option Nat :=
  match src.get? pos with
  | none => some pos
  | some c => if isNewline c then some pos else I.findLineEnd src (pos + 1)

/-- One pull from the scanner: `performLexSource`'s dispatch on the next rune,
with the multi-rune lexemes delegated to the state functions above.  Returns
the emitted token, the next position, and whether the scanner halted (it
halts after emitting the EOF token or an error token). -/
def lexNextF (I : Interp) (src : Str) (pos : Nat) : Option (Lexeme × Nat × Bool) :=
  match src.get? pos with
  | none => some ({ kind := .eof, position := pos, value := [] }, pos, true)
  | some c =>
    if c = '{' then some ({ kind := .leftBrace, position := pos, value := [c] }, pos + 1, false)
    else if c = '}' then some ({ kind := .rightBrace, position := pos, value := [c] }, pos + 1, false)
    else if c = '(' then some ({ kind := .leftParen, position := pos, value := [c] }, pos + 1, false)
    else if c = ')' then some ({ kind := .rightParen, position := pos, value := [c] }, pos + 1, false)
    else if c = '[' then some ({ kind := .leftBracket, position := pos, value := [c] }, pos + 1, false)
    else if c = ']' then some ({ kind := .rightBracket, position := pos, value := [c] }, pos + 1, false)
    else if c = '<' then some ({ kind := .leftTri, position := pos, value := [c] }, pos + 1, false)
    else if c = '>' then some ({ kind := .rightTri, position := pos, value := [c] }, pos + 1, false)
    else if c = ';' then some ({ kind := .semicolon, position := pos, value := [c] }, pos + 1, false)
    else if c = ',' then some ({ kind := .comma, position := pos, value := [c] }, pos + 1, false)
    else if c = '.' then
      match src.get? (pos + 1), src.get? (pos + 2) with
      | some '.', some '.' =>
        some ({ kind := .variadic, position := pos, value := sliceAt src pos (pos + 3) }, pos + 3, false)
      | _, _ => some ({ kind := .error, position := pos, value := msgUnrecognized c }, pos, true)
    else if c = '=' then some ({ kind := .equals, position := pos, value := [c] }, pos + 1, false)
    else if c = '?' then some ({ kind := .questionMark, position := pos, value := [c] }, pos + 1, false)
    else if c = ':' then some ({ kind := .colon, position := pos, value := [c] }, pos + 1, false)
    else if isSpace c || isNewline c then
      some ({ kind := .whitespace, position := pos, value := [c] }, pos + 1, false)
    else if c = '"' then
      match I.scanStringEnd src false (pos + 1) with
      | none => none
      | some q => some ({ kind := .string, position := pos, value := sliceAt src pos q }, q, false)
    else if isAlphaNumeric c then
      match I.scanIdentEnd src pos with
      | none => none
      | some q => some ({ kind := .identifier, position := pos, value := sliceAt src pos q }, q, false)
    else if c = '/' then
      match I.findLineEnd src (commentScanStart src (pos + 1)) with
      | none => none
      | some q => some ({ kind := .comment, position := pos, value := sliceAt src pos q }, q, false)
    else some ({ kind := .error, position := pos, value := msgUnrecognized c }, pos, true)

/-- The whole token stream of a scan, ending with the EOF or error token
(the shape `collect` in `lex_test.go` gathers). -/
def scanTokensF (I : Interp) (src : Str) (pos : Nat) : Option (List Lexeme) :=
  match I.lexNext src pos with
  | none => none
  | some (t, pos', halted) =>
    if halted then some [t]
    else
      match I.scanTokens src pos' with
      | none => none
      | some ts => some (t :: ts)

/-- `consumeToken`: advance to the next non-ignored token (comment collection
is dropped together with comment decoration). -/
def consumeTokenF (I : Interp) (st : PState) : Option PState :=
  match pullTokenI I st with
  | none => none
  | some (t, st') =>
    if isIgnored t.kind then I.consumeToken st'
    else some { st' with cur := t }

/-- `nextToken`: the next non-ignored token, without advancing (the
`peekableLexer`'s buffering collapses to re-running the pure scanner). -/
def nextTokenF (I : Interp) (st : PState) : Option Lexeme :=
  match pullTokenI I st with
  | none => none
  | some (t, st') => if isIgnored t.kind then I.nextToken st' else some t

/-- The `loop:` in `consumeType`'s identifier path: while the name so far has
a row in `expandedTypeKeywords` and the current token is an identifier equal
to one of the row's secondaries, fold it into the name and look up again. -/
def expandLoopF (I : Interp) (st : PState) (nm : Str) : Option (Str × PState) :=
  match expandedTypeKeywords nm with
  | none => some (nm, st)
  | some secondaries =>
    match secondaries.find? (fun s => st.cur.kind = .identifier && st.cur.value = s) with
    | some s =>
      match consumeI I [.identifier] st with
      | none => none
      | some (_, _, st) => I.expandLoop st (nm ++ [' '] ++ s)
    | none => some (nm, st)

/-- `consumeType`: open the type's base, take one base-type branch, store the
base into the produced node, then wrap the whole result in a `nullable` node
when a `?` follows (this wrap is the only place a `nullable` is created). -/
def consumeTypeF (I : Interp) (st : PState) : Option (Ty × PState) :=
  let st := openNode st
  match I.consumeTypeBranch st with
  | none => none
  | some (core, st) =>
    let (errs, st) := closeNode st
    let t := core.setBase errs
    match tryConsumeI I [.questionMark] st with
    | none => none
    | some (true, _, st) => some (.nullable errs t, st)
    | some (false, _, st) => some (t, st)

/-- The base-type branches of `consumeType`: `any`, `sequence<T>`,
`record<K,V>`, a parenthesized `or`-union, or the identifier path with
two-word expansion and an optional parametrized argument list. -/
def consumeTypeBranchF (I : Interp) (st : PState) : Option (Ty × PState) :=
  match tryConsumeKeywordI I kwAny st with
  | none => none
  | some (true, st) => some (.anyT [], st)
  | some (false, st) =>
  match tryConsumeKeywordI I kwSequence st with
  | none => none
  | some (true, st) =>
    (match consumeI I [.leftTri] st with
    | none => none
    | some (_, _, st) =>
      match I.consumeType st with
      | none => none
      | some (e, st) =>
        match consumeI I [.rightTri] st with
        | none => none
        | some (_, _, st) => some (.sequence [] e, st))
  | some (false, st) =>
  match tryConsumeKeywordI I kwRecord st with
  | none => none
  | some (true, st) =>
    (match consumeI I [.leftTri] st with
    | none => none
    | some (_, _, st) =>
      match I.consumeType st with
      | none => none
      | some (k, st) =>
        match consumeI I [.comma] st with
        | none => none
        | some (_, _, st) =>
          match I.consumeType st with
          | none => none
          | some (v, st) =>
            match consumeI I [.rightTri] st with
            | none => none
            | some (_, _, st) => some (.recordT [] k v, st))
  | some (false, st) =>
  match tryConsumeI I [.leftParen] st with
  | none => none
  | some (true, _, st) =>
    (match I.unionTypesLoop st [] with
    | none => none
    | some (ts, st) =>
      match consumeI I [.rightParen] st with
      | none => none
      | some (_, _, st) => some (.union [] ts, st))
  | some (false, _, st) =>
    match consumeIdentifierI I st with
    | none => none
    | some (nm, st) =>
      match I.expandLoop st nm with
      | none => none
      | some (nm, st) =>
        match tryConsumeI I [.leftTri] st with
        | none => none
        | some (true, _, st) =>
          (match I.prElemsLoop st [] with
          | none => none
          | some (es, st) =>
            match tryConsumeI I [.comma] st with
            | none => none
            | some (_, _, st) =>
              match consumeI I [.rightTri] st with
              | none => none
              | some (_, _, st) => some (.parametrized [] nm es, st))
        | some (false, _, st) => some (.typeName [] nm, st)

/-- The `or`-separated member list of a parenthesized union. -/
def unionTypesLoopF (I : Interp) (st : PState) (acc : List Ty) : Option (List Ty × PState) :=
  match I.consumeType st with
  | none => none
  | some (t, st) =>
    match tryConsumeKeywordI I kwOr st with
    | none => none
    | some (true, st) => I.unionTypesLoop st (t :: acc)
    | some (false, st) => some ((t :: acc).reverse, st)

/-- The comma-separated element list of a parametrized type (the comma
between elements goes through the erroring `consume`). -/
def prElemsLoopF (I : Interp) (st : PState) (acc : List Ty) : Option (List Ty × PState) :=
  if st.isToken [.rightTri] then some (acc.reverse, st)
  else
    match (if acc.isEmpty then some (true, sentinelLexeme, st) else consumeI I [.comma] st) with
    | none => none
    | some (_, _, st) =>
      if st.isToken [.rightTri] then some (acc.reverse, st)
      else
        match I.consumeType st with
        | none => none
        | some (t, st) => I.prElemsLoop st (t :: acc)

/-- The comma-separated list inside `tryConsumeIdentifiersList`'s parens. -/
def identListLoopF (I : Interp) (st : PState) (acc : List Str) : Option (List Str × PState) :=
  match consumeIdentifierI I st with
  | none => none
  | some (v, st) =>
    match tryConsumeI I [.comma] st with
    | none => none
    | some (true, _, st) => I.identListLoop st (v :: acc)
    | some (false, _, st) => some ((v :: acc).reverse, st)

/-- `tryConsumeIdentifiersList`: a parenthesized identifier list, or nothing
when no `(` follows. -/
def tryConsumeIdentifiersListF (I : Interp) (st : PState) :
    Option (Option (List Str) × PState) :=
  match tryConsumeI I [.leftParen] st with
  | none => none
  | some (false, _, st) => some (none, st)
  | some (true, _, st) =>
    match I.identListLoop st [] with
    | none => none
    | some (l, st) =>
      match consumeI I [.rightParen] st with
      | none => none
      | some (_, _, st) => some (some l, st)

/-- `tryConsumeDefaultValue`: an `= literal` default, when present. -/
def tryConsumeDefaultValueF (I : Interp) (st : PState) : Option (Option Literal × PState) :=
  match tryConsumeI I [.equals] st with
  | none => none
  | some (true, _, st) =>
    (match consumeLiteralI I st with
    | none => none
    | some (l, st) => some (some l, st))
  | some (false, _, st) => some (none, st)

/-- `tryConsumeAnnotations`: zero or more bracketed annotation groups,
concatenated. -/
def tryConsumeAnnotationsF (I : Interp) (st : PState) : Option (List Annotation × PState) :=
  I.annGroupsLoop st []

/-- The outer `for` of `tryConsumeAnnotations`: one iteration per `[...]`
group (a missing `]` returns what was collected so far). -/
def annGroupsLoopF (I : Interp) (st : PState) (acc : List Annotation) :
    Option (List Annotation × PState) :=
  match tryConsumeI I [.leftBracket] st with
  | none => none
  | some (false, _, st) => some (acc.reverse, st)
  | some (true, _, st) =>
    match I.annPartsLoop st acc with
    | none => none
    | some (acc, st) =>
      match consumeI I [.rightBracket] st with
      | none => none
      | some (false, _, st) => some (acc.reverse, st)
      | some (true, _, st) => I.annGroupsLoop st acc

/-- The inner `for` of `tryConsumeAnnotations`: comma-separated parts. -/
def annPartsLoopF (I : Interp) (st : PState) (acc : List Annotation) :
    Option (List Annotation × PState) :=
  match I.consumeAnnotationPart st with
  | none => none
  | some (a, st) =>
    match tryConsumeI I [.comma] st with
    | none => none
    | some (true, _, st) => I.annPartsLoop st (a :: acc)
    | some (false, _, st) => some (a :: acc, st)

/-- `consumeAnnotationPart`: a name, optionally followed by `=` and a single
identifier or an identifier list, or by a parenthesized parameter list. -/
def consumeAnnotationPartF (I : Interp) (st : PState) : Option ( Annotation × PState) :=
  let st := openNode st
  match consumeIdentifierI I st with
  | none => none
  | some (name, st) =>
    match tryConsumeI I [.equals] st with
    | none => none
    | some (true, _, st) =>
      (match I.tryConsumeIdentifiersList st with
      | none => none
      | some (some vals, st) =>
        let (errs, st) := closeNode st
        some (.mk errs name [] vals [], st)
      | some (none, st) =>
        match consumeIdentifierI I st with
        | none => none
        | some (v, st) =>
          let (errs, st) := closeNode st
          some (.mk errs name v [] [], st))
    | some (false, _, st) =>
      if st.isToken [.leftParen] then
        match I.consumeParameters st with
        | none => none
        | some (ps, st) =>
          let (errs, st) := closeNode st
          some (.mk errs name [] [] ps, st)
      else
        let (errs, st) := closeNode st
        some (.mk errs name [] [] [], st)

/-- `consumeParameters`: `(`, then a comma-separated parameter list unless
`)` follows immediately. -/
def consumeParametersF (I : Interp) (st : PState) : Option (List Parameter × PState) :=
  match consumeI I [.leftParen] st with
  | none => none
  | some (_, _, st) =>
    match tryConsumeI I [.rightParen] st with
    | none => none
    | some (true, _, st) => some ([], st)
    | some (false, _, st) => I.paramsLoop st []

/-- The `for` of `consumeParameters`: stops at `)` or at the first missing
comma. -/
def paramsLoopF (I : Interp) (st : PState) (acc : List Parameter) :
    Option (List Parameter × PState) :=
  match I.consumeParameter st with
  | none => none
  | some (p, st) =>
    match tryConsumeI I [.rightParen] st with
    | none => none
    | some (true, _, st) => some ((p :: acc).reverse, st)
    | some (false, _, st) =>
      match consumeI I [.comma] st with
      | none => none
      | some (true, _, st) => I.paramsLoop st (p :: acc)
      | some (false, _, st) => some ((p :: acc).reverse, st)

/-- `consumeParameter`: annotations, optional `optional`, type, optional
variadic ellipsis, name, optional default. -/
def consumeParameterF (I : Interp) (st : PState) : Option (Parameter × PState) :=
  let st := openNode st
  match I.tryConsumeAnnotations st with
  | none => none
  | some (ann, st) =>
  match tryConsumeKeywordI I kwOptional st with
  | none => none
  | some (opt, st) =>
  match I.consumeType st with
  | none => none
  | some (ty, st) =>
  match tryConsumeI I [.variadic] st with
  | none => none
  | some (vard, _, st) =>
  match consumeIdentifierI I st with
  | none => none
  | some (name, st) =>
  match I.tryConsumeDefaultValue st with
  | none => none
  | some (init, st) =>
    let (errs, st) := closeNode st
    some (.mk errs opt ty vard name init ann, st)

/-- `consumeMember`: modifier keywords in their fixed order, a second
annotation attempt when none came first, the type, an optional name,
parameters only for non-attribute non-const members, an optional default.
`dict` presets the `Attribute` flag (dictionary members). -/
def consumeMemberF (I : Interp) (dict : Bool) (st : PState) : Option (Member × PState) :=
  let st := openNode st
  match I.tryConsumeAnnotations st with
  | none => none
  | some (ann0, st) =>
  match
    (if st.isIdentifier kwGetter || st.isIdentifier kwSetter || st.isIdentifier kwDeleter then
      match consumeIdentifierI I st with
      | none => none
      | some (v, st) => some (v, st)
    else
      match tryConsumeKeywordI I kwStringifier st with
      | none => none
      | some (true, st) => some (kwStringifier, st)
      | some (false, st) => some (([] : Str), st)) with
  | none => none
  | some (spec, st) =>
  match tryConsumeKeywordI I kwConst st with
  | none => none
  | some (isConst, st) =>
  match tryConsumeKeywordI I kwStatic st with
  | none => none
  | some (isStatic, st) =>
  match tryConsumeKeywordI I kwReadonly st with
  | none => none
  | some (isReadonly, st) =>
  match tryConsumeKeywordI I kwRequired st with
  | none => none
  | some (isRequired, st) =>
  match tryConsumeKeywordI I kwAttribute st with
  | none => none
  | some (attrKw, st) =>
  let attrib := dict || attrKw
  match (if ann0.isEmpty then I.tryConsumeAnnotations st else some (ann0, st)) with
  | none => none
  | some (ann, st) =>
  match I.consumeType st with
  | none => none
  | some (ty, st) =>
  match tryConsumeIdentifierI I st with
  | none => none
  | some (name?, st) =>
  match (if !attrib && !isConst then I.consumeParameters st else some ([], st)) with
  | none => none
  | some (params, st) =>
  match I.tryConsumeDefaultValue st with
  | none => none
  | some (init, st) =>
    let (errs, st) := closeNode st
    some ({ Errors := errs, Name := name?.getD [], Ty := ty, Init := init,
            Attribute := attrib, Static := isStatic, Const := isConst,
            Readonly := isReadonly, Required := isRequired,
            Specialization := spec, Parameters := params,
            Annotations := ann }, st)

/-- The value list of `consumeEnum`: after the first value each further one
needs a leading comma; a comma directly before `}` ends the list. -/
def enumLoopF (I : Interp) (st : PState) (acc : List Literal) : Option (List Literal × PState) :=
  if st.isToken [.rightBrace] then some (acc.reverse, st)
  else
    match (if acc.isEmpty then some (true, sentinelLexeme, st) else tryConsumeI I [.comma] st) with
    | none => none
    | some (false, _, st) => some (acc.reverse, st)
    | some (true, _, st) =>
      if st.isToken [.rightBrace] then some (acc.reverse, st)
      else
        match consumeLiteralI I st with
        | none => none
        | some (l, st) => I.enumLoop st (l :: acc)

/-- `consumeEnum` (takes over the declaration's open base). -/
def consumeEnumF (I : Interp) (ann : List Annotation) (st : PState) : Option (Decl × PState) :=
  match consumeKeywordI I kwEnum st with
  | none => none
  | some (_, st) =>
  match consumeIdentifierI I st with
  | none => none
  | some (name, st) =>
  match consumeI I [.leftBrace] st with
  | none => none
  | some (_, _, st) =>
  match I.enumLoop st [] with
  | none => none
  | some (vals, st) =>
  match tryConsumeI I [.comma] st with
  | none => none
  | some (_, _, st) =>
  match consumeI I [.rightBrace] st with
  | none => none
  | some (_, _, st) =>
  match consumeI I [.semicolon] st with
  | none => none
  | some (_, _, st) =>
    let (errs, st) := closeNode st
    some (.enum errs ann name vals, st)

/-- `consumeTypedef` (takes over the declaration's open base). -/
def consumeTypedefF (I : Interp) (ann : List Annotation) (st : PState) : Option (Decl × PState) :=
  match consumeKeywordI I kwTypedef st with
  | none => none
  | some (_, st) =>
  match I.consumeType st with
  | none => none
  | some (ty, st) =>
  match consumeIdentifierI I st with
  | none => none
  | some (name, st) =>
  match consumeI I [.semicolon] st with
  | none => none
  | some (_, _, st) =>
    let (errs, st) := closeNode st
    some (.typedef errs ann name ty, st)

/-- One member-plus-semicolon step of an interface body: the member is kept
even when the semicolon is missing, in which case a second error node is
emitted and the body loop breaks. -/
def interfaceMemberStepF (I : Interp) (st : PState) (mems : List Member)
    (ops : List CustomOp) (iter : Option Iterable) :
    Option (List Member × List CustomOp × Option Iterable × PState) :=
  match I.consumeMember false st with
  | none => none
  | some (m, st) =>
    match consumeI I [.semicolon] st with
    | none => none
    | some (true, _, st) => I.interfaceBody st (m :: mems) ops iter
    | some (false, _, st) =>
      let st := emitError msgExpectedSemicolon st
      some ((m :: mems).reverse, ops.reverse, iter, st)

/-- The body loop of `consumeInterface`: custom operations
(`serializer`/`jsonifier`/`stringifier` directly followed by `;`), an
`iterable<...>` (one or two types), otherwise a member. -/
def interfaceBodyF (I : Interp) (st : PState) (mems : List Member)
    (ops : List CustomOp) (iter : Option Iterable) :
    Option (List Member × List CustomOp × Option Iterable × PState) :=
  if st.isToken [.rightBrace] then some (mems.reverse, ops.reverse, iter, st)
  else if st.isIdentifier kwSerializer || st.isIdentifier kwJsonifier
      || st.isIdentifier kwStringifier then
    match I.nextToken st with
    | none => none
    | some nt =>
      if nt.kind = .semicolon then
        let st := openNode st
        match consumeIdentifierI I st with
        | none => none
        | some (opName, st) =>
          match consumeI I [.semicolon] st with
          | none => none
          | some (ok, _, st) =>
            let (errs, st) := closeNode st
            let ops := ({ Errors := errs, Name := opName } : CustomOp) :: ops
            if ok then I.interfaceBody st mems ops iter
            else some (mems.reverse, ops.reverse, iter, st)
      else I.interfaceMemberStep st mems ops iter
  else if st.isIdentifier kwIterable then
    match consumeI I [.identifier] st with
    | none => none
    | some (_, _, st) =>
      let st := openNode st
      match consumeI I [.leftTri] st with
      | none => none
      | some (_, _, st) =>
      match I.consumeType st with
      | none => none
      | some (elem, st) =>
      match tryConsumeI I [.comma] st with
      | none => none
      | some (okC, _, st) =>
      match (if okC then
               match I.consumeType st with
               | none => none
               | some (e2, st) => some ((some elem, e2), st)
             else some (((none : Option Ty), elem), st)) with
      | none => none
      | some ((key, elem), st) =>
      match consumeI I [.rightTri] st with
      | none => none
      | some (_, _, st) =>
        let (errs, st) := closeNode st
        let iter := some ({ Errors := errs, Key := key, Elem := elem } : Iterable)
        match consumeI I [.semicolon] st with
        | none => none
        | some (true, _, st) => I.interfaceBody st mems ops iter
        | some (false, _, st) => some (mems.reverse, ops.reverse, iter, st)
  else I.interfaceMemberStep st mems ops iter

/-- `consumeInterface` (takes over the declaration's open base; the two
Bools are the `partial` and `callback` flags). -/
def consumeInterfaceF (I : Interp) (part cb : Bool) (ann : List Annotation)
    (st : PState) : Option (Decl × PState) :=
  match consumeIdentifierI I st with
  | none => none
  | some (name, st) =>
  match tryConsumeI I [.colon] st with
  | none => none
  | some (okC, _, st) =>
  match (if okC then consumeIdentifierI I st else some (([] : Str), st)) with
  | none => none
  | some (inherits, st) =>
  match consumeI I [.leftBrace] st with
  | none => none
  | some (_, _, st) =>
  match I.interfaceBody st [] [] none with
  | none => none
  | some (mems, ops, iter, st) =>
  match consumeI I [.rightBrace] st with
  | none => none
  | some (_, _, st) =>
  match consumeI I [.semicolon] st with
  | none => none
  | some (_, _, st) =>
    let (errs, st) := closeNode st
    some (.iface errs part cb name inherits ann mems ops iter, st)

/-- One member-plus-semicolon step of a mixin body. -/
def mixinMemberStepF (I : Interp) (st : PState) (mems : List Member)
    (ops : List CustomOp) (iter : Option Iterable) :
    Option (List Member × List CustomOp × Option Iterable × PState) :=
  match I.consumeMember false st with
  | none => none
  | some (m, st) =>
    match consumeI I [.semicolon] st with
    | none => none
    | some (true, _, st) => I.mixinBody st (m :: mems) ops iter
    | some (false, _, st) =>
      let st := emitError msgExpectedSemicolon st
      some ((m :: mems).reverse, ops.reverse, iter, st)

/-- The body loop of `consumeMixin`: custom operations are only
`serializer`/`jsonifier` (no lookahead for the semicolon, the name read off
the current token), iterables carry a single element type. -/
def mixinBodyF (I : Interp) (st : PState) (mems : List Member)
    (ops : List CustomOp) (iter : Option Iterable) :
    Option (List Member × List CustomOp × Option Iterable × PState) :=
  if st.isToken [.rightBrace] then some (mems.reverse, ops.reverse, iter, st)
  else if st.isIdentifier kwSerializer || st.isIdentifier kwJsonifier then
    let opName := st.cur.value
    let st := openNode st
    match consumeI I [.identifier] st with
    | none => none
    | some (_, _, st) =>
      match consumeI I [.semicolon] st with
      | none => none
      | some (ok, _, st) =>
        let (errs, st) := closeNode st
        let ops := ({ Errors := errs, Name := opName } : CustomOp) :: ops
        if ok then I.mixinBody st mems ops iter
        else some (mems.reverse, ops.reverse, iter, st)
  else if st.isIdentifier kwIterable then
    match consumeI I [.identifier] st with
    | none => none
    | some (_, _, st) =>
      let st := openNode st
      match consumeI I [.leftTri] st with
      | none => none
      | some (_, _, st) =>
      match I.consumeType st with
      | none => none
      | some (elem, st) =>
      match consumeI I [.rightTri] st with
      | none => none
      | some (_, _, st) =>
        let (errs, st) := closeNode st
        let iter := some ({ Errors := errs, Key := none, Elem := elem } : Iterable)
        match consumeI I [.semicolon] st with
        | none => none
        | some (true, _, st) => I.mixinBody st mems ops iter
        | some (false, _, st) => some (mems.reverse, ops.reverse, iter, st)
  else I.mixinMemberStep st mems ops iter

/-- `consumeMixin` (takes over the declaration's open base; the `partial`
flag consumed by `consumeInterfaceOrMixin` is dropped for mixins). -/
def consumeMixinF (I : Interp) (ann : List Annotation) (st : PState) :
    Option (Decl × PState) :=
  match consumeIdentifierI I st with
  | none => none
  | some (name, st) =>
  match tryConsumeI I [.colon] st with
  | none => none
  | some (okC, _, st) =>
  match (if okC then consumeIdentifierI I st else some (([] : Str), st)) with
  | none => none
  | some (inherits, st) =>
  match consumeI I [.leftBrace] st with
  | none => none
  | some (_, _, st) =>
  match I.mixinBody st [] [] none with
  | none => none
  | some (mems, ops, iter, st) =>
  match consumeI I [.rightBrace] st with
  | none => none
  | some (_, _, st) =>
  match consumeI I [.semicolon] st with
  | none => none
  | some (_, _, st) =>
    let (errs, st) := closeNode st
    some (.mixin errs name inherits ann mems ops iter, st)

/-- `consumeInterfaceOrMixin`: optional `partial`, then `interface`, then
either a mixin or an interface. -/
def consumeInterfaceOrMixinF (I : Interp) (ann : List Annotation) (st : PState) :
    Option (Decl × PState) :=
  match tryConsumeKeywordI I kwPartial st with
  | none => none
  | some (part, st) =>
  match consumeKeywordI I kwInterface st with
  | none => none
  | some (_, st) =>
  match tryConsumeKeywordI I kwMixin st with
  | none => none
  | some (true, st) => I.consumeMixin ann st
  | some (false, st) => I.consumeInterface part false ann st

/-- The member loop of `consumeDictionary`: every member is consumed with the
dictionary flag set. -/
def dictLoopF (I : Interp) (st : PState) (acc : List Member) : Option (List Member × PState) :=
  if st.isToken [.rightBrace] then some (acc.reverse, st)
  else
    match I.consumeMember true st with
    | none => none
    | some (m, st) =>
      match consumeI I [.semicolon] st with
      | none => none
      | some (true, _, st) => I.dictLoop st (m :: acc)
      | some (false, _, st) =>
        let st := emitError msgExpectedSemicolon st
        some ((m :: acc).reverse, st)

/-- `consumeDictionary` (takes over the declaration's open base). -/
def consumeDictionaryF (I : Interp) (ann : List Annotation) (st : PState) :
    Option (Decl × PState) :=
  match tryConsumeKeywordI I kwPartial st with
  | none => none
  | some (part, st) =>
  match consumeKeywordI I kwDictionary st with
  | none => none
  | some (_, st) =>
  match consumeIdentifierI I st with
  | none => none
  | some (name, st) =>
  match tryConsumeI I [.colon] st with
  | none => none
  | some (okC, _, st) =>
  match (if okC then consumeIdentifierI I st else some (([] : Str), st)) with
  | none => none
  | some (inherits, st) =>
  match consumeI I [.leftBrace] st with
  | none => none
  | some (_, _, st) =>
  match I.dictLoop st [] with
  | none => none
  | some (mems, st) =>
  match consumeI I [.rightBrace] st with
  | none => none
  | some (_, _, st) =>
  match consumeI I [.semicolon] st with
  | none => none
  | some (_, _, st) =>
    let (errs, st) := closeNode st
    some (.dictionary errs part name inherits ann mems, st)

/-- `p.consumeToken()` until one of the kinds (or EOF) is current, without
consuming it: the resynchronization loops of `consumeDeclaration`'s fallback. -/
def skipUntilF (I : Interp) (kinds : List TokenKind) (st : PState) : Option PState :=
  if st.isToken kinds then some st
  else
    match I.consumeToken st with
    | none => none
    | some st' => I.skipUntil kinds st'

/-- `consumeDeclaration`: open the declaration's base, consume leading
annotations, dispatch on the keyword; the fallback emits an error, skips to
the next `{`, then to the next `}` (not consuming it), consumes a `;` and
returns an empty placeholder interface carrying only the base. -/
def consumeDeclarationF (I : Interp) (st : PState) : Option (Decl × PState) :=
  let st := openNode st
  match I.tryConsumeAnnotations st with
  | none => none
  | some (ann, st) =>
    if st.isIdentifier kwEnum then I.consumeEnum ann st
    else if st.isIdentifier kwTypedef then I.consumeTypedef ann st
    else if st.isIdentifier kwCallback then
      match consumeIdentifierI I st with
      | none => none
      | some (_, st) =>
      match tryConsumeKeywordI I kwInterface st with
      | none => none
      | some (true, st) => I.consumeInterface false true ann st
      | some (false, st) =>
        match consumeIdentifierI I st with
        | none => none
        | some (name, st) =>
        match consumeI I [.equals] st with
        | none => none
        | some (_, _, st) =>
        match I.consumeType st with
        | none => none
        | some (ret, st) =>
        match I.consumeParameters st with
        | none => none
        | some (par, st) =>
        match consumeI I [.semicolon] st with
        | none => none
        | some (_, _, st) =>
          let (errs, st) := closeNode st
          some (.callbackDecl errs name ret par, st)
    else if st.isIdentifier kwInterface then I.consumeInterfaceOrMixin ann st
    else if st.isIdentifier kwDictionary then I.consumeDictionary ann st
    else
      match (if st.isIdentifier kwPartial then
               match I.nextToken st with
               | none => none
               | some nt => some (nt.kind = .identifier && nt.value = kwInterface,
                                  nt.kind = .identifier && nt.value = kwDictionary)
             else some (false, false)) with
      | none => none
      | some (nextIface, nextDict) =>
        if st.isIdentifier kwPartial && nextIface then I.consumeInterfaceOrMixin ann st
        else if st.isIdentifier kwPartial && nextDict then I.consumeDictionary ann st
        else
          let st := emitError msgExpectedIfaceOrDict st
          match I.skipUntil [.leftBrace, .eof] st with
          | none => none
          | some st =>
          match I.skipUntil [.rightBrace, .eof] st with
          | none => none
          | some st =>
          match consumeI I [.semicolon] st with
          | none => none
          | some (_, _, st) =>
            let (errs, st) := closeNode st
            some (.iface errs false false [] [] [] [] [] none, st)

/-- The `Loop:` of `consumeTopLevel`: dispatch on the current token; a bare
identifier may start an `implements`/`includes` link (those nodes are never
opened on the construction stack, so a missing `;` there lands on the root);
anything unrecognized emits "unexpected token at root level" and stops the
whole loop. -/
def topLoopF (I : Interp) (st : PState) (acc : List Decl) : Option (File × PState) :=
  if st.isToken [.eof] then
    let (errs, st) := closeNode st
    some ({ Errors := errs, Declarations := acc.reverse }, st)
  else if st.isToken [.leftBracket] || st.isIdentifier kwInterface
      || st.isIdentifier kwPartial || st.isIdentifier kwCallback
      || st.isIdentifier kwDictionary || st.isIdentifier kwEnum
      || st.isIdentifier kwTypedef then
    match I.consumeDeclaration st with
    | none => none
    | some (d, st) => I.topLoop st (d :: acc)
  else if st.cur.kind = .identifier then
    match consumeIdentifierI I st with
    | none => none
    | some (name, st) =>
      match tryConsumeKeywordI I kwImplements st with
      | none => none
      | some (true, st) =>
        (match consumeIdentifierI I st with
        | none => none
        | some (source, st) =>
          match consumeI I [.semicolon] st with
          | none => none
          | some (_, _, st) => I.topLoop st (.implementation [] name source :: acc))
      | some (false, st) =>
        match tryConsumeKeywordI I kwIncludes st with
        | none => none
        | some (true, st) =>
          (match consumeIdentifierI I st with
          | none => none
          | some (source, st) =>
            match consumeI I [.semicolon] st with
            | none => none
            | some (_, _, st) => I.topLoop st (.includes [] name source :: acc))
        | some (false, st) =>
          let st := emitError msgUnexpectedRoot st
          let (errs, st) := closeNode st
          some ({ Errors := errs, Declarations := acc.reverse }, st)
  else
    let st := emitError msgUnexpectedRoot st
    let (errs, st) := closeNode st
    some ({ Errors := errs, Declarations := acc.reverse }, st)

/-- `consumeTopLevel`: open the `File`, pull the first token; an error-kind
token there records its text on the root and returns immediately; otherwise
run the top-level loop. -/
def consumeTopLevelF (I : Interp) (st : PState) : Option (File × PState) :=
  let st := openNode st
  match I.consumeToken st with
  | none => none
  | some st =>
    if st.cur.kind = .error then
      let st := emitError st.cur.value st
      let (errs, st) := closeNode st
      some ({ Errors := errs, Declarations := [] }, st)
    else I.topLoop st []

/-! ## The fuel-indexed interpreter -/

/-- Fuel level 0: out of fuel everywhere. -/
def interpZero : Interp where
  scanIdentEnd := fun _ _ => none
  scanStringEnd := fun _ _ _ => none
  findLineEnd := fun _ _ => none
  lexNext := fun _ _ => none
  scanTokens := fun _ _ => none
  consumeToken := fun _ => none
  nextToken := fun _ => none
  expandLoop := fun _ _ => none
  consumeType := fun _ => none
  consumeTypeBranch := fun _ => none
  unionTypesLoop := fun _ _ => none
  prElemsLoop := fun _ _ => none
  identListLoop := fun _ _ => none
  tryConsumeIdentifiersList := fun _ => none
  tryConsumeDefaultValue := fun _ => none
  tryConsumeAnnotations := fun _ => none
  annGroupsLoop := fun _ _ => none
  annPartsLoop := fun _ _ => none
  consumeAnnotationPart := fun _ => none
  consumeParameters := fun _ => none
  paramsLoop := fun _ _ => none
  consumeParameter := fun _ => none
  consumeMember := fun _ _ => none
  enumLoop := fun _ _ => none
  consumeEnum := fun _ _ => none
  consumeTypedef := fun _ _ => none
  interfaceMemberStep := fun _ _ _ _ => none
  interfaceBody := fun _ _ _ _ => none
  consumeInterface := fun _ _ _ _ => none
  mixinMemberStep := fun _ _ _ _ => none
  mixinBody := fun _ _ _ _ => none
  consumeMixin := fun _ _ => none
  consumeInterfaceOrMixin := fun _ _ => none
  dictLoop := fun _ _ => none
  consumeDictionary := fun _ _ => none
  skipUntil := fun _ _ => none
  consumeDeclaration := fun _ => none
  topLoop := fun _ _ => none
  consumeTopLevel := fun _ => none

/-- Fuel level `n+1` from level `n`. -/
def interpStep (prev : Interp) : Interp where
  scanIdentEnd := scanIdentEndF prev
  scanStringEnd := scanStringEndF prev
  findLineEnd := findLineEndF prev
  lexNext := lexNextF prev
  scanTokens := scanTokensF prev
  consumeToken := consumeTokenF prev
  nextToken := nextTokenF prev
  expandLoop := expandLoopF prev
  consumeType := consumeTypeF prev
  consumeTypeBranch := consumeTypeBranchF prev
  unionTypesLoop := unionTypesLoopF prev
  prElemsLoop := prElemsLoopF prev
  identListLoop := identListLoopF prev
  tryConsumeIdentifiersList := tryConsumeIdentifiersListF prev
  tryConsumeDefaultValue := tryConsumeDefaultValueF prev
  tryConsumeAnnotations := tryConsumeAnnotationsF prev
  annGroupsLoop := annGroupsLoopF prev
  annPartsLoop := annPartsLoopF prev
  consumeAnnotationPart := consumeAnnotationPartF prev
  consumeParameters := consumeParametersF prev
  paramsLoop := paramsLoopF prev
  consumeParameter := consumeParameterF prev
  consumeMember := consumeMemberF prev
  enumLoop := enumLoopF prev
  consumeEnum := consumeEnumF prev
  consumeTypedef := consumeTypedefF prev
  interfaceMemberStep := interfaceMemberStepF prev
  interfaceBody := interfaceBodyF prev
  consumeInterface := consumeInterfaceF prev
  mixinMemberStep := mixinMemberStepF prev
  mixinBody := mixinBodyF prev
  consumeMixin := consumeMixinF prev
  consumeInterfaceOrMixin := consumeInterfaceOrMixinF prev
  dictLoop := dictLoopF prev
  consumeDictionary := consumeDictionaryF prev
  skipUntil := skipUntilF prev
  consumeDeclaration := consumeDeclarationF prev
  topLoop := topLoopF prev
  consumeTopLevel := consumeTopLevelF prev

/-- The interpreter at a given fuel. -/
def interp (fuel : Nat) : Interp :=
  Nat.rec interpZero (fun _ prev => interpStep prev) fuel

/-! ## The routines under their source names -/

def scanIdentEnd (fuel : Nat) : Str → Nat → Option Nat := (interp fuel).scanIdentEnd
def scanStringEnd (fuel : Nat) : Str → Bool → Nat → Option Nat := (interp fuel).scanStringEnd
def findLineEnd (fuel : Nat) : Str → Nat → Option Nat := (interp fuel).findLineEnd
def lexNext (fuel : Nat) : Str → Nat → Option (Lexeme × Nat × Bool) := (interp fuel).lexNext
def scanTokens (fuel : Nat) : Str → Nat → Option (List Lexeme) := (interp fuel).scanTokens
def consumeToken (fuel : Nat) : PState → Option PState := (interp fuel).consumeToken
def nextToken (fuel : Nat) : PState → Option Lexeme := (interp fuel).nextToken
def expandLoop (fuel : Nat) : PState → Str → Option (Str × PState) := (interp fuel).expandLoop
def consumeType (fuel : Nat) : PState → Option (Ty × PState) := (interp fuel).consumeType
def consumeTypeBranch (fuel : Nat) : PState → Option (Ty × PState) := (interp fuel).consumeTypeBranch
def unionTypesLoop (fuel : Nat) : PState → List Ty → Option (List Ty × PState) := (interp fuel).unionTypesLoop
def prElemsLoop (fuel : Nat) : PState → List Ty → Option (List Ty × PState) := (interp fuel).prElemsLoop
def identListLoop (fuel : Nat) : PState → List Str → Option (List Str × PState) := (interp fuel).identListLoop
def tryConsumeIdentifiersList (fuel : Nat) : PState → Option (Option (List Str) × PState) := (interp fuel).tryConsumeIdentifiersList
def tryConsumeDefaultValue (fuel : Nat) : PState → Option (Option Literal × PState) := (interp fuel).tryConsumeDefaultValue
def tryConsumeAnnotations (fuel : Nat) : PState → Option (List Annotation × PState) := (interp fuel).tryConsumeAnnotations
def annGroupsLoop (fuel : Nat) : PState → List Annotation → Option (List Annotation × PState) := (interp fuel).annGroupsLoop
def annPartsLoop (fuel : Nat) : PState → List Annotation → Option (List Annotation × PState) := (interp fuel).annPartsLoop
def consumeAnnotationPart (fuel : Nat) : PState → Option ( Annotation × PState) := (interp fuel).consumeAnnotationPart
def consumeParameters (fuel : Nat) : PState → Option (List Parameter × PState) := (interp fuel).consumeParameters
def paramsLoop (fuel : Nat) : PState → List Parameter → Option (List Parameter × PState) := (interp fuel).paramsLoop
def consumeParameter (fuel : Nat) : PState → Option (Parameter × PState) := (interp fuel).consumeParameter
def consumeMember (fuel : Nat) : Bool → PState → Option (Member × PState) := (interp fuel).consumeMember
def enumLoop (fuel : Nat) : PState → List Literal → Option (List Literal × PState) := (interp fuel).enumLoop
def consumeEnum (fuel : Nat) : List Annotation → PState → Option (Decl × PState) := (interp fuel).consumeEnum
def consumeTypedef (fuel : Nat) : List Annotation → PState → Option (Decl × PState) := (interp fuel).consumeTypedef
def interfaceMemberStep (fuel : Nat) : PState → List Member → List CustomOp → Option Iterable → Option (List Member × List CustomOp × Option Iterable × PState) := (interp fuel).interfaceMemberStep
def interfaceBody (fuel : Nat) : PState → List Member → List CustomOp → Option Iterable → Option (List Member × List CustomOp × Option Iterable × PState) := (interp fuel).interfaceBody
def consumeInterface (fuel : Nat) : Bool → Bool → List Annotation → PState → Option (Decl × PState) := (interp fuel).consumeInterface
def mixinMemberStep (fuel : Nat) : PState → List Member → List CustomOp → Option Iterable → Option (List Member × List CustomOp × Option Iterable × PState) := (interp fuel).mixinMemberStep
def mixinBody (fuel : Nat) : PState → List Member → List CustomOp → Option Iterable → Option (List Member × List CustomOp × Option Iterable × PState) := (interp fuel).mixinBody
def consumeMixin (fuel : Nat) : List Annotation → PState → Option (Decl × PState) := (interp fuel).consumeMixin
def consumeInterfaceOrMixin (fuel : Nat) : List Annotation → PState → Option (Decl × PState) := (interp fuel).consumeInterfaceOrMixin
def dictLoop (fuel : Nat) : PState → List Member → Option (List Member × PState) := (interp fuel).dictLoop
def consumeDictionary (fuel : Nat) : List Annotation → PState → Option (Decl × PState) := (interp fuel).consumeDictionary
def skipUntil (fuel : Nat) : List TokenKind → PState → Option PState := (interp fuel).skipUntil
def consumeDeclaration (fuel : Nat) : PState → Option (Decl × PState) := (interp fuel).consumeDeclaration
def topLoop (fuel : Nat) : PState → List Decl → Option (File × PState) := (interp fuel).topLoop
def consumeTopLevel (fuel : Nat) : PState → Option (File × PState) := (interp fuel).consumeTopLevel

/-- `buildParser`'s initial state: position 0, current token the zero-value
EOF lexeme, empty construction stack. -/
def initState (input : Str) : PState :=
  { src := input, pos := 0, halted := false,
    cur := { kind := .eof, position := 0, value := [] }, stack := [] }

/-- `Parse`: the entry point — build the parser over a fresh scan of the
input and consume the top level. -/
def Parse (fuel : Nat) (input : Str) : Option File :=
  match consumeTopLevel fuel (initState input) with
  | none => none
  | some (f, _) => some f

/-! ## Structural predicates over produced trees -/

/-- The head constructor of the type is not `nullable`. -/
def Ty.notNullableHead : Ty → Prop
  | .nullable _ _ => False
  | _ => True

/-- No `nullable` node anywhere inside the type directly wraps another
`nullable` node. -/
inductive TyNN : Ty → Prop where
  | anyT : TyNN (.anyT e)
  | typeName : TyNN (.typeName e n)
  | sequence : TyNN t → TyNN (.sequence e t)
  | recordT : TyNN k → TyNN v → TyNN (.recordT e k v)
  | union : (∀ t ∈ ts, TyNN t) → TyNN (.union e ts)
  | parametrized : (∀ t ∈ ts, TyNN t) → TyNN (.parametrized e n ts)
  | nullable : TyNN t → t.notNullableHead → TyNN (.nullable e t)

mutual
/-- All types reachable inside the annotation satisfy `TyNN`. -/
inductive AnnNN : Annotation → Prop where
  | mk : (∀ p ∈ ps, ParamNN p) → AnnNN (.mk e n v vs ps)

/-- All types reachable inside the parameter satisfy `TyNN`. -/
inductive ParamNN : Parameter → Prop where
  | mk : TyNN t → (∀ a ∈ anns, AnnNN a) → ParamNN (.mk e opt t vard n init anns)
end

/-- All types reachable inside the member satisfy `TyNN`. -/
def MemberNN (m : Member) : Prop :=
  TyNN m.Ty ∧ (∀ p ∈ m.Parameters, ParamNN p) ∧ ∀ a ∈ m.Annotations, AnnNN a

/-- All types reachable inside the iterable satisfy `TyNN`. -/
def IterNN (it : Iterable) : Prop :=
  (∀ k, it.Key = some k → TyNN k) ∧ TyNN it.Elem

/-- All types reachable inside the declaration satisfy `TyNN`. -/
def DeclNN : Decl → Prop
  | .iface _ _ _ _ _ ann ms _ it =>
    (∀ a ∈ ann, AnnNN a) ∧ (∀ m ∈ ms, MemberNN m) ∧ ∀ i, it = some i → IterNN i
  | .mixin _ _ _ ann ms _ it =>
    (∀ a ∈ ann, AnnNN a) ∧ (∀ m ∈ ms, MemberNN m) ∧ ∀ i, it = some i → IterNN i
  | .dictionary _ _ _ _ ann ms => (∀ a ∈ ann, AnnNN a) ∧ ∀ m ∈ ms, MemberNN m
  | .enum _ ann _ _ => ∀ a ∈ ann, AnnNN a
  | .typedef _ ann _ t => (∀ a ∈ ann, AnnNN a) ∧ TyNN t
  | .callbackDecl _ _ r ps => TyNN r ∧ ∀ p ∈ ps, ParamNN p
  | .implementation _ _ _ => True
  | .includes _ _ _ => True

/-- No `nullable` node anywhere in the returned tree directly wraps another
`nullable` node. -/
def FileNN (f : File) : Prop := ∀ d ∈ f.Declarations, DeclNN d

/-- Every member of a dictionary declaration has its `Attribute` flag set and
carries no parameter list. -/
def DeclDictOK : Decl → Prop
  | .dictionary _ _ _ _ _ ms => ∀ m ∈ ms, m.Attribute = true ∧ m.Parameters = []
  | _ => True

/-- `DeclDictOK` for every declaration of the file. -/
def FileDictOK (f : File) : Prop := ∀ d ∈ f.Declarations, DeclDictOK d


/-- The per-fuel-level output invariants behind claims C4 and C10: every
produced type satisfies `TyNN` (no directly-nested nullable), the head of a
`consumeTypeBranch` result is never nullable, and every member produced with
the dictionary flag has `Attribute` set and no parameter list.  Loop fields
carry the membership hypothesis for their accumulator. -/
structure GoodInterp (I : Interp) : Prop where
  consumeType : ∀ st t st2, I.consumeType st = some (t, st2) → TyNN t
  consumeTypeBranch : ∀ st t st2, I.consumeTypeBranch st = some (t, st2) →
    TyNN t ∧ t.notNullableHead
  unionTypesLoop : ∀ st acc ts st2, (∀ t ∈ acc, TyNN t) →
    I.unionTypesLoop st acc = some (ts, st2) → ∀ t ∈ ts, TyNN t
  prElemsLoop : ∀ st acc ts st2, (∀ t ∈ acc, TyNN t) →
    I.prElemsLoop st acc = some (ts, st2) → ∀ t ∈ ts, TyNN t
  tryConsumeAnnotations : ∀ st anns st2,
    I.tryConsumeAnnotations st = some (anns, st2) → ∀ a ∈ anns, AnnNN a
  annGroupsLoop : ∀ st acc anns st2, (∀ a ∈ acc, AnnNN a) →
    I.annGroupsLoop st acc = some (anns, st2) → ∀ a ∈ anns, AnnNN a
  annPartsLoop : ∀ st acc anns st2, (∀ a ∈ acc, AnnNN a) →
    I.annPartsLoop st acc = some (anns, st2) → ∀ a ∈ anns, AnnNN a
  consumeAnnotationPart : ∀ st a st2,
    I.consumeAnnotationPart st = some (a, st2) → AnnNN a
  consumeParameters : ∀ st ps st2,
    I.consumeParameters st = some (ps, st2) → ∀ p ∈ ps, ParamNN p
  paramsLoop : ∀ st acc ps st2, (∀ p ∈ acc, ParamNN p) →
    I.paramsLoop st acc = some (ps, st2) → ∀ p ∈ ps, ParamNN p
  consumeParameter : ∀ st p st2, I.consumeParameter st = some (p, st2) → ParamNN p
  consumeMember : ∀ dict st m st2, I.consumeMember dict st = some (m, st2) →
    MemberNN m ∧ (dict = true → m.Attribute = true ∧ m.Parameters = [])
  consumeEnum : ∀ ann st d st2, (∀ a ∈ ann, AnnNN a) →
    I.consumeEnum ann st = some (d, st2) → DeclNN d ∧ DeclDictOK d
  consumeTypedef : ∀ ann st d st2, (∀ a ∈ ann, AnnNN a) →
    I.consumeTypedef ann st = some (d, st2) → DeclNN d ∧ DeclDictOK d
  interfaceMemberStep : ∀ st mems ops iter mems2 ops2 iter2 st2,
    (∀ m ∈ mems, MemberNN m) → (∀ i, iter = some i → IterNN i) →
    I.interfaceMemberStep st mems ops iter = some (mems2, ops2, iter2, st2) →
    (∀ m ∈ mems2, MemberNN m) ∧ ∀ i, iter2 = some i → IterNN i
  interfaceBody : ∀ st mems ops iter mems2 ops2 iter2 st2,
    (∀ m ∈ mems, MemberNN m) → (∀ i, iter = some i → IterNN i) →
    I.interfaceBody st mems ops iter = some (mems2, ops2, iter2, st2) →
    (∀ m ∈ mems2, MemberNN m) ∧ ∀ i, iter2 = some i → IterNN i
  consumeInterface : ∀ part cb ann st d st2, (∀ a ∈ ann, AnnNN a) →
    I.consumeInterface part cb ann st = some (d, st2) → DeclNN d ∧ DeclDictOK d
  mixinMemberStep : ∀ st mems ops iter mems2 ops2 iter2 st2,
    (∀ m ∈ mems, MemberNN m) → (∀ i, iter = some i → IterNN i) →
    I.mixinMemberStep st mems ops iter = some (mems2, ops2, iter2, st2) →
    (∀ m ∈ mems2, MemberNN m) ∧ ∀ i, iter2 = some i → IterNN i
  mixinBody : ∀ st mems ops iter mems2 ops2 iter2 st2,
    (∀ m ∈ mems, MemberNN m) → (∀ i, iter = some i → IterNN i) →
    I.mixinBody st mems ops iter = some (mems2, ops2, iter2, st2) →
    (∀ m ∈ mems2, MemberNN m) ∧ ∀ i, iter2 = some i → IterNN i
  consumeMixin : ∀ ann st d st2, (∀ a ∈ ann, AnnNN a) →
    I.consumeMixin ann st = some (d, st2) → DeclNN d ∧ DeclDictOK d
  consumeInterfaceOrMixin : ∀ ann st d st2, (∀ a ∈ ann, AnnNN a) →
    I.consumeInterfaceOrMixin ann st = some (d, st2) → DeclNN d ∧ DeclDictOK d
  dictLoop : ∀ st acc ms st2,
    (∀ m ∈ acc, MemberNN m ∧ m.Attribute = true ∧ m.Parameters = []) →
    I.dictLoop st acc = some (ms, st2) →
    ∀ m ∈ ms, MemberNN m ∧ m.Attribute = true ∧ m.Parameters = []
  consumeDictionary : ∀ ann st d st2, (∀ a ∈ ann, AnnNN a) →
    I.consumeDictionary ann st = some (d, st2) → DeclNN d ∧ DeclDictOK d
  consumeDeclaration : ∀ st d st2,
    I.consumeDeclaration st = some (d, st2) → DeclNN d ∧ DeclDictOK d
  topLoop : ∀ st acc f st2, (∀ d ∈ acc, DeclNN d ∧ DeclDictOK d) →
    I.topLoop st acc = some (f, st2) → FileNN f ∧ FileDictOK f
  consumeTopLevel : ∀ st f st2,
    I.consumeTopLevel st = some (f, st2) → FileNN f ∧ FileDictOK f


/-! ## Concrete scanner/parser states used in the analyses below -/

/-- The input `partial.` (a `partial` not followed by `interface` or
`dictionary`, then a lexical error). -/
def c2src : Str := "partial.".toList

/-- The `partial` identifier token of `c2src`. -/
def c2tok : Lexeme := ⟨.identifier, 0, "partial".toList⟩

/-- The error token of `c2src` (the lone `.` at offset 7). -/
def c2err : Lexeme := ⟨.error, 7, msgUnrecognized '.'⟩

/-- The parser state at the top of the root-level loop on `c2src`. -/
def c2stT : PState := ⟨c2src, 7, false, c2tok, [[]]⟩

/-- The parser state entering `consumeDeclaration`'s recovery skip on
`c2src`: base slot opened, "Expected interface or dictionary" recorded. -/
def c2stP : PState := ⟨c2src, 7, false, c2tok, [[⟨msgExpectedIfaceOrDict⟩], []]⟩

/-- The state after the recovery skip consumed the error token: the scanner
has halted and the current token is error-kind. -/
def c2stE : PState := ⟨c2src, 7, true, c2err, [[⟨msgExpectedIfaceOrDict⟩], []]⟩

/-! ## Unfolding equations for the fuel-indexed routines -/

lemma interp_succ (n : Nat) : interp (n + 1) = interpStep (interp n) := rfl

lemma interp_scanIdentEnd (n : Nat) : (interp n).scanIdentEnd = scanIdentEnd n := rfl

lemma interp_scanStringEnd (n : Nat) : (interp n).scanStringEnd = scanStringEnd n := rfl

lemma interp_findLineEnd (n : Nat) : (interp n).findLineEnd = findLineEnd n := rfl

lemma interp_lexNext (n : Nat) : (interp n).lexNext = lexNext n := rfl

lemma interp_scanTokens (n : Nat) : (interp n).scanTokens = scanTokens n := rfl

lemma interp_consumeToken (n : Nat) : (interp n).consumeToken = consumeToken n := rfl

lemma interp_nextToken (n : Nat) : (interp n).nextToken = nextToken n := rfl

lemma interp_expandLoop (n : Nat) : (interp n).expandLoop = expandLoop n := rfl

lemma interp_consumeType (n : Nat) : (interp n).consumeType = consumeType n := rfl

lemma interp_consumeTypeBranch (n : Nat) : (interp n).consumeTypeBranch = consumeTypeBranch n := rfl

lemma interp_unionTypesLoop (n : Nat) : (interp n).unionTypesLoop = unionTypesLoop n := rfl

lemma interp_prElemsLoop (n : Nat) : (interp n).prElemsLoop = prElemsLoop n := rfl

lemma interp_identListLoop (n : Nat) : (interp n).identListLoop = identListLoop n := rfl

lemma interp_tryConsumeIdentifiersList (n : Nat) : (interp n).tryConsumeIdentifiersList = tryConsumeIdentifiersList n := rfl

lemma interp_tryConsumeDefaultValue (n : Nat) : (interp n).tryConsumeDefaultValue = tryConsumeDefaultValue n := rfl

lemma interp_tryConsumeAnnotations (n : Nat) : (interp n).tryConsumeAnnotations = tryConsumeAnnotations n := rfl

lemma interp_annGroupsLoop (n : Nat) : (interp n).annGroupsLoop = annGroupsLoop n := rfl

lemma interp_annPartsLoop (n : Nat) : (interp n).annPartsLoop = annPartsLoop n := rfl

lemma interp_consumeAnnotationPart (n : Nat) : (interp n).consumeAnnotationPart = consumeAnnotationPart n := rfl

lemma interp_consumeParameters (n : Nat) : (interp n).consumeParameters = consumeParameters n := rfl

lemma interp_paramsLoop (n : Nat) : (interp n).paramsLoop = paramsLoop n := rfl

lemma interp_consumeParameter (n : Nat) : (interp n).consumeParameter = consumeParameter n := rfl

lemma interp_consumeMember (n : Nat) : (interp n).consumeMember = consumeMember n := rfl

lemma interp_enumLoop (n : Nat) : (interp n).enumLoop = enumLoop n := rfl

lemma interp_consumeEnum (n : Nat) : (interp n).consumeEnum = consumeEnum n := rfl

lemma interp_consumeTypedef (n : Nat) : (interp n).consumeTypedef = consumeTypedef n := rfl

lemma interp_interfaceMemberStep (n : Nat) : (interp n).interfaceMemberStep = interfaceMemberStep n := rfl

lemma interp_interfaceBody (n : Nat) : (interp n).interfaceBody = interfaceBody n := rfl

lemma interp_consumeInterface (n : Nat) : (interp n).consumeInterface = consumeInterface n := rfl

lemma interp_mixinMemberStep (n : Nat) : (interp n).mixinMemberStep = mixinMemberStep n := rfl

lemma interp_mixinBody (n : Nat) : (interp n).mixinBody = mixinBody n := rfl

lemma interp_consumeMixin (n : Nat) : (interp n).consumeMixin = consumeMixin n := rfl

lemma interp_consumeInterfaceOrMixin (n : Nat) : (interp n).consumeInterfaceOrMixin = consumeInterfaceOrMixin n := rfl

lemma interp_dictLoop (n : Nat) : (interp n).dictLoop = dictLoop n := rfl

lemma interp_consumeDictionary (n : Nat) : (interp n).consumeDictionary = consumeDictionary n := rfl

lemma interp_skipUntil (n : Nat) : (interp n).skipUntil = skipUntil n := rfl

lemma interp_consumeDeclaration (n : Nat) : (interp n).consumeDeclaration = consumeDeclaration n := rfl

lemma interp_topLoop (n : Nat) : (interp n).topLoop = topLoop n := rfl

lemma interp_consumeTopLevel (n : Nat) : (interp n).consumeTopLevel = consumeTopLevel n := rfl

lemma scanIdentEnd_succ (n : Nat) : scanIdentEnd (n + 1) = scanIdentEndF (interp n) := rfl

lemma scanStringEnd_succ (n : Nat) : scanStringEnd (n + 1) = scanStringEndF (interp n) := rfl

lemma findLineEnd_succ (n : Nat) : findLineEnd (n + 1) = findLineEndF (interp n) := rfl

lemma lexNext_succ (n : Nat) : lexNext (n + 1) = lexNextF (interp n) := rfl

lemma scanTokens_succ (n : Nat) : scanTokens (n + 1) = scanTokensF (interp n) := rfl

lemma consumeToken_succ (n : Nat) : consumeToken (n + 1) = consumeTokenF (interp n) := rfl

lemma nextToken_succ (n : Nat) : nextToken (n + 1) = nextTokenF (interp n) := rfl

lemma expandLoop_succ (n : Nat) : expandLoop (n + 1) = expandLoopF (interp n) := rfl

lemma consumeType_succ (n : Nat) : consumeType (n + 1) = consumeTypeF (interp n) := rfl

lemma consumeTypeBranch_succ (n : Nat) : consumeTypeBranch (n + 1) = consumeTypeBranchF (interp n) := rfl

lemma unionTypesLoop_succ (n : Nat) : unionTypesLoop (n + 1) = unionTypesLoopF (interp n) := rfl

lemma prElemsLoop_succ (n : Nat) : prElemsLoop (n + 1) = prElemsLoopF (interp n) := rfl

lemma identListLoop_succ (n : Nat) : identListLoop (n + 1) = identListLoopF (interp n) := rfl

lemma tryConsumeIdentifiersList_succ (n : Nat) : tryConsumeIdentifiersList (n + 1) = tryConsumeIdentifiersListF (interp n) := rfl

lemma tryConsumeDefaultValue_succ (n : Nat) : tryConsumeDefaultValue (n + 1) = tryConsumeDefaultValueF (interp n) := rfl

lemma tryConsumeAnnotations_succ (n : Nat) : tryConsumeAnnotations (n + 1) = tryConsumeAnnotationsF (interp n) := rfl

lemma annGroupsLoop_succ (n : Nat) : annGroupsLoop (n + 1) = annGroupsLoopF (interp n) := rfl

lemma annPartsLoop_succ (n : Nat) : annPartsLoop (n + 1) = annPartsLoopF (interp n) := rfl

lemma consumeAnnotationPart_succ (n : Nat) : consumeAnnotationPart (n + 1) = consumeAnnotationPartF (interp n) := rfl

lemma consumeParameters_succ (n : Nat) : consumeParameters (n + 1) = consumeParametersF (interp n) := rfl

lemma paramsLoop_succ (n : Nat) : paramsLoop (n + 1) = paramsLoopF (interp n) := rfl

lemma consumeParameter_succ (n : Nat) : consumeParameter (n + 1) = consumeParameterF (interp n) := rfl

lemma consumeMember_succ (n : Nat) : consumeMember (n + 1) = consumeMemberF (interp n) := rfl

lemma enumLoop_succ (n : Nat) : enumLoop (n + 1) = enumLoopF (interp n) := rfl

lemma consumeEnum_succ (n : Nat) : consumeEnum (n + 1) = consumeEnumF (interp n) := rfl

lemma consumeTypedef_succ (n : Nat) : consumeTypedef (n + 1) = consumeTypedefF (interp n) := rfl

lemma interfaceMemberStep_succ (n : Nat) : interfaceMemberStep (n + 1) = interfaceMemberStepF (interp n) := rfl

lemma interfaceBody_succ (n : Nat) : interfaceBody (n + 1) = interfaceBodyF (interp n) := rfl

lemma consumeInterface_succ (n : Nat) : consumeInterface (n + 1) = consumeInterfaceF (interp n) := rfl

lemma mixinMemberStep_succ (n : Nat) : mixinMemberStep (n + 1) = mixinMemberStepF (interp n) := rfl

lemma mixinBody_succ (n : Nat) : mixinBody (n + 1) = mixinBodyF (interp n) := rfl

lemma consumeMixin_succ (n : Nat) : consumeMixin (n + 1) = consumeMixinF (interp n) := rfl

lemma consumeInterfaceOrMixin_succ (n : Nat) : consumeInterfaceOrMixin (n + 1) = consumeInterfaceOrMixinF (interp n) := rfl

lemma dictLoop_succ (n : Nat) : dictLoop (n + 1) = dictLoopF (interp n) := rfl

lemma consumeDictionary_succ (n : Nat) : consumeDictionary (n + 1) = consumeDictionaryF (interp n) := rfl

lemma skipUntil_succ (n : Nat) : skipUntil (n + 1) = skipUntilF (interp n) := rfl

lemma consumeDeclaration_succ (n : Nat) : consumeDeclaration (n + 1) = consumeDeclarationF (interp n) := rfl

lemma topLoop_succ (n : Nat) : topLoop (n + 1) = topLoopF (interp n) := rfl

lemma consumeTopLevel_succ (n : Nat) : consumeTopLevel (n + 1) = consumeTopLevelF (interp n) := rfl

/-! ## Lemmas: divergence of the string-literal scan at end of input -/

/-- Once the scan position has reached the end of the input, the
string-literal loop makes no progress: no fuel suffices. -/
lemma scanStringEnd_past_end : ∀ (n : Nat) (src : Str) (esc : Bool) (pos : Nat),
    src.length ≤ pos → scanStringEnd n src esc pos = none := by
  intro n
  induction n with
  | zero => intro src esc pos h; rfl
  | succ n ih =>
    intro src esc pos h
    rw [scanStringEnd_succ]
    unfold scanStringEndF
    rw [List.get?_eq_none.mpr h, interp_scanStringEnd]
    exact ih src false pos h

/-- On the one-character input `"` the scanner's first pull never returns. -/
lemma lexNext_quote : ∀ (k : Nat), lexNext k ['\"'] 0 = none := by
  intro k
  cases k with
  | zero => rfl
  | succ k =>
    have hstep : lexNext (k + 1) ['\"'] 0 =
        (match scanStringEnd k ['\"'] false 1 with
         | none => none
         | some q =>
           some ((⟨TokenKind.string, 0, sliceAt ['\"'] 0 q⟩ : Lexeme), q, false)) := rfl
    rw [hstep, scanStringEnd_past_end k ['\"'] false 1 (by decide)]

/-- The parser's very first `consumeToken` on input `"` never returns. -/
lemma consumeToken_quote : ∀ (k : Nat),
    consumeToken k (openNode (initState ['\"'])) = none := by
  intro k
  cases k with
  | zero => rfl
  | succ k =>
    rw [consumeToken_succ]
    simp +decide [consumeTokenF, pullTokenI, openNode, initState, interp_lexNext,
      lexNext_quote k]

/-- `consumeTopLevel` on input `"` never returns. -/
lemma consumeTopLevel_quote : ∀ (k : Nat),
    consumeTopLevel k (initState ['\"']) = none := by
  intro k
  cases k with
  | zero => rfl
  | succ k =>
    rw [consumeTopLevel_succ]
    simp +decide [consumeTopLevelF, interp_consumeToken, consumeToken_quote k]

/-- C1: the claim says every parse terminates, including on an unterminated
double-quoted string literal.  The code disagrees: `lexStringLiteral` checks
for the closing quote but not for the end of input, so on the input `"` the
scan — and with it the whole `Parse` call — never returns, whatever the fuel.
This supports the code_bug verdict for claim C1. -/
theorem C1_unterminated_string_diverges : ∀ fuel, Parse fuel ("\"".toList) = none := by
  intro fuel
  show Parse fuel ['\"'] = none
  unfold Parse
  rw [consumeTopLevel_quote fuel]

/-! ## Concrete parses settling C3, C6, C7, C8 -/

/-- C3, counterexample: the claim says that after `unsigned long` a further
`long` is not absorbed into the type name (no second lookup round).  In fact
`expandedTypeKeywords` also has the row `"unsigned long" → {long}` and the
lookup loop re-runs on the combined name, so `typedef unsigned long long x;`
parses, without error, to a typedef whose aliased type is the single name
`"unsigned long long"` — which is not `"unsigned long"`. -/
theorem C3_counterexample :
    Parse 200 ("typedef unsigned long long x;".toList) =
      some { Errors := [], Declarations := [.typedef [] [] ("x".toList)
        (.typeName [] ("unsigned long long".toList))] } ∧
    "unsigned long long".toList ≠ "unsigned long".toList :=
  ⟨rfl, by decide⟩

/-- C3, amended: the two-word lookup consumes one matching secondary
identifier per round but re-runs on the combined name, whose row
`"unsigned long" → {long}` lets a third word be absorbed: `unsigned long`
parses to the name "unsigned long", and `unsigned long long` to the
three-word name "unsigned long long". -/
theorem C3_expanded_type_lookup_rounds :
    Parse 200 ("typedef unsigned long x;".toList) =
      some { Errors := [], Declarations := [.typedef [] [] ("x".toList)
        (.typeName [] ("unsigned long".toList))] } ∧
    Parse 200 ("typedef unsigned long long x;".toList) =
      some { Errors := [], Declarations := [.typedef [] [] ("x".toList)
        (.typeName [] ("unsigned long long".toList))] } :=
  ⟨rfl, rfl⟩

/-- C6, counterexample: the claim says an enum body with no values cannot
yield an error-free Enum with an empty value list.  Parsing `enum E { };`
yields exactly that: an Enum with `Values = []`, no error on the enum node
and no error anywhere on the root. -/
theorem C6_counterexample :
    ¬ (∀ fuel input file, Parse fuel input = some file →
        ∀ d ∈ file.Declarations, ∀ e a nm vs, d = Decl.enum e a nm vs →
          vs ≠ [] ∨ e ≠ [] ∨ file.Errors ≠ []) := by
  intro h
  have hmem : (Decl.enum [] [] ("E".toList) []) ∈
      ({ Errors := [], Declarations := [.enum [] [] ("E".toList) []] } : File).Declarations :=
    List.mem_singleton.mpr rfl
  have := h 200 ("enum E { };".toList)
      { Errors := [], Declarations := [.enum [] [] ("E".toList) []] } rfl
      (Decl.enum [] [] ("E".toList) []) hmem [] [] ("E".toList) [] rfl
  simp at this

/-- C6, amended: an Enum carries an ordered but possibly empty sequence of
literal values (`enum E { };` parses error-free with `Values = []`); a
trailing comma before `}` is permitted; a consecutive comma is not skipped
silently but produces an empty literal carrying error nodes between the two
neighbouring values. -/
theorem C6_enum_value_lists :
    Parse 200 ("enum E { };".toList) =
      some { Errors := [], Declarations := [.enum [] [] ("E".toList) []] } ∧
    Parse 200 ("enum Color \x7b \"red\", \"green\", \x7d;".toList) =
      some { Errors := [], Declarations := [.enum [] [] ("Color".toList)
        [{ Errors := [], Value := "\"red\"".toList },
         { Errors := [], Value := "\"green\"".toList }]] } ∧
    Parse 300 ("enum E \x7b \"a\",, \"b\" \x7d;".toList) =
      some { Errors := [], Declarations := [.enum [] [] ("E".toList)
        [{ Errors := [], Value := "\"a\"".toList },
         { Errors := [ErrorNode.mk msgExpectedOneOf, ErrorNode.mk msgExpectedIdentifier],
           Value := [] },
         { Errors := [], Value := "\"b\"".toList }]] } :=
  ⟨rfl, rfl, rfl⟩

/-- C7: parsing `123 interface Foo {};` returns a File with an empty
declaration list and exactly one ErrorNode (the "unexpected token at root
level" error) on the root — the unexpected root-level token stops the whole
top-level loop, and the parse returns normally. -/
theorem C7_malformed_top_level :
    Parse 200 ("123 interface Foo {};".toList) =
      some { Errors := [ErrorNode.mk msgUnexpectedRoot], Declarations := [] } :=
  rfl

/-- C8: parsing `typedef (long or DOMString)? Result;` yields one
declaration: a Typedef named `Result` whose type is a Nullable wrapping a
Union of the two named types `long` and `DOMString`, in that order, with no
errors anywhere. -/
theorem C8_union_nullable_typedef :
    Parse 200 ("typedef (long or DOMString)? Result;".toList) =
      some { Errors := [], Declarations := [.typedef [] [] ("Result".toList)
        (.nullable [] (.union [] [.typeName [] ("long".toList),
                                  .typeName [] ("DOMString".toList)]))] } :=
  rfl

/-! ## Lemmas: an error token inside declaration recovery makes the parse diverge -/

/-- Pulling past the halted scanner yields the zero-value (error-kind)
lexeme and leaves the scanner halted. -/
lemma consumeToken_halted (k : Nat) (st : PState) (h : st.halted = true) :
    consumeToken (k + 1) st = some { st with cur := zeroLexeme } := by
  rw [consumeToken_succ]
  simp [consumeTokenF, pullTokenI, h, zeroLexeme, isIgnored]

/-- Once the scanner has halted on an error and the current token is
error-kind, a skip loop waiting for any non-error kind never finds it:
no fuel suffices. -/
lemma skipUntil_stuck : ∀ (k : Nat) (kinds : List TokenKind) (st : PState),
    st.halted = true → st.cur.kind = .error → kinds.contains .error = false →
    skipUntil k kinds st = none := by
  intro k
  induction k with
  | zero => intro kinds st _ _ _; rfl
  | succ k ih =>
    intro kinds st h1 h2 h3
    rw [skipUntil_succ]
    unfold skipUntilF
    rw [PState.isToken, h2, h3]
    simp only [Bool.false_eq_true, if_false, interp_consumeToken, interp_skipUntil]
    cases k with
    | zero => rfl
    | succ k2 =>
      rw [consumeToken_halted k2 st h1]
      exact ih kinds { st with cur := zeroLexeme } h1 rfl h3

/-- On `partial.` the recovery skip consumes the error token and gets stuck. -/
lemma c2_skip : ∀ f, skipUntil f [.leftBrace, .eof] c2stP = none := by
  intro f
  rcases f with _|_|_|j
  · rfl
  · rfl
  · rfl
  · have hstep : skipUntil (j + 3) [.leftBrace, .eof] c2stP =
        skipUntil (j + 2) [.leftBrace, .eof] c2stE := rfl
    rw [hstep]
    exact skipUntil_stuck (j + 2) _ c2stE rfl rfl rfl

/-- On `partial.` the declaration consumption falls into the unrecognized-
declaration recovery and never returns. -/
lemma c2_decl : ∀ f, consumeDeclaration f c2stT = none := by
  intro f
  rcases f with _|_|_|j
  · rfl
  · rfl
  · rfl
  · rw [consumeDeclaration_succ]
    have hann : tryConsumeAnnotations (j + 2) (openNode c2stT) = some ([], openNode c2stT) := rfl
    have hnext : nextToken (j + 2) (openNode c2stT) = some c2err := rfl
    have hskip : skipUntil (j + 2) [.leftBrace, .eof]
        (emitError msgExpectedIfaceOrDict (openNode c2stT)) = none := c2_skip (j + 2)
    simp +decide [c2stT, c2tok, c2err, c2src, openNode, emitError] at hann hnext hskip
    simp +decide [consumeDeclarationF, interp_tryConsumeAnnotations, interp_nextToken,
      interp_skipUntil, interp_consumeEnum, interp_consumeTypedef, interp_consumeInterfaceOrMixin,
      interp_consumeDictionary, interp_consumeInterface, hann, hnext, hskip,
      PState.isIdentifier, c2stT, c2tok, c2err, c2src, openNode, emitError,
      kwEnum, kwTypedef, kwCallback, kwInterface, kwDictionary, kwPartial]

/-- On `partial.` the root-level loop never returns. -/
lemma c2_top : ∀ f, topLoop f c2stT [] = none := by
  intro f
  rcases f with _|m
  · rfl
  · rw [topLoop_succ]
    have hdecl : consumeDeclaration m c2stT = none := c2_decl m
    simp +decide [c2stT, c2tok, c2src] at hdecl
    simp +decide [topLoopF, interp_consumeDeclaration, hdecl, PState.isToken,
      PState.isIdentifier, c2stT, c2tok, c2src, kwInterface, kwPartial, kwCallback,
      kwDictionary, kwEnum, kwTypedef]

/-- On `partial.` the whole top-level consumption never returns. -/
lemma c2_ctl : ∀ f, consumeTopLevel f (initState c2src) = none := by
  intro f
  rcases f with _|_|_|_|_|_|_|_|_|_|_|j
  · rfl
  · rfl
  · rfl
  · rfl
  · rfl
  · rfl
  · rfl
  · rfl
  · rfl
  · rfl
  · rfl
  · have hstep : consumeTopLevel (j + 11) (initState c2src) = topLoop (j + 10) c2stT [] := rfl
    rw [hstep]
    exact c2_top _

/-- C2, counterexample: the claim says that wherever in the token stream the
scanner's error token occurs, the whole parse stops with the lexical error
recorded on the root File node.  On `partial.` the scan does produce an
error token, but the parse never stops at all: the unrecognized-declaration
recovery skip pulls past the halted scanner forever, so no fuel makes
`Parse` return a tree (the Go parse hangs instead of returning). -/
theorem C2_counterexample :
    (∃ toks, scanTokens 20 ("partial.".toList) 0 = some toks ∧
      ∃ t ∈ toks, t.kind = TokenKind.error) ∧
    ¬ ∃ fuel file, Parse fuel ("partial.".toList) = some file := by
  constructor
  · exact ⟨[c2tok, c2err], rfl, c2err, by simp, rfl⟩
  · rintro ⟨fuel, file, h⟩
    have hnone : Parse fuel ("partial.".toList) = none := by
      show Parse fuel c2src = none
      unfold Parse
      rw [c2_ctl fuel]
    rw [h] at hnone
    exact Option.noConfusion hnone

/-- `consumeToken` never touches the construction stack. -/
lemma consumeToken_stack : ∀ (f : Nat) (st st' : PState),
    consumeToken f st = some st' → st'.stack = st.stack := by
  intro f
  induction f with
  | zero =>
    intro st st' h
    rw [show consumeToken 0 st = none from rfl] at h
    exact Option.noConfusion h
  | succ f ih =>
    intro st st' h
    rw [consumeToken_succ] at h
    unfold consumeTokenF pullTokenI at h
    split at h
    · exact Option.noConfusion h
    · rename_i t st2 heq
      have hstack2 : st2.stack = st.stack := by
        split at heq
        · simp only [Option.some.injEq, Prod.mk.injEq] at heq
          obtain ⟨h1, h2⟩ := heq
          subst h2
          rfl
        · split at heq
          · exact Option.noConfusion heq
          · simp only [Option.some.injEq, Prod.mk.injEq] at heq
            obtain ⟨h1, h2⟩ := heq
            subst h2
            rfl
      split at h
      · exact (ih _ _ h).trans hstack2
      · simp only [Option.some.injEq] at h
        subst h
        exact hstack2

/-- C2, amended: when the scanner's error token is the first token the
parser sees, `consumeTopLevel` stops immediately and the error's diagnostic
text is recorded as the only ErrorNode on the root File node, with no
declarations.  (An error token reached at the top of the root-level loop
likewise stops the loop with a root-attached error, while one reached
inside declaration recovery makes the parse diverge — see the
counterexample.) -/
theorem C2_error_token_first (src : Str) (fuel : Nat) (st1 : PState)
    (h1 : consumeToken fuel (openNode (initState src)) = some st1)
    (h2 : st1.cur.kind = TokenKind.error) :
    Parse (fuel + 1) src =
      some { Errors := [⟨st1.cur.value⟩], Declarations := [] } := by
  have hstack : st1.stack = [[]] := consumeToken_stack fuel _ _ h1
  unfold Parse
  rw [consumeTopLevel_succ]
  simp only [consumeTopLevelF, interp_consumeToken, interp_topLoop]
  rw [h1]
  simp [h2, emitError, closeNode, hstack]

/-- Witness for `C2_error_token_first` at the input `@`. -/
theorem C2_error_token_first_witness :
    Parse 11 ("@".toList) =
      some { Errors := [⟨msgUnrecognized '@'⟩], Declarations := [] } :=
  C2_error_token_first ("@".toList) 10
    ⟨"@".toList, 0, true, ⟨.error, 0, msgUnrecognized '@'⟩, [[]]⟩ rfl rfl


lemma sliceAt_get? (src : Str) (a b i : Nat) (h : i < b - a) :
    (sliceAt src a b).get? i = src.get? (a + i) := by
  unfold sliceAt
  rw [List.get?_take h, List.get?_drop]

lemma sliceAt_length (src : Str) (a b : Nat) (h1 : a ≤ b) (h2 : b ≤ src.length) :
    (sliceAt src a b).length = b - a := by
  unfold sliceAt
  rw [List.length_take, List.length_drop]
  omega

lemma sliceAt_append_drop (src : Str) (a b : Nat) (h1 : a ≤ b) :
    sliceAt src a b ++ src.drop b = src.drop a := by
  unfold sliceAt
  rw [show src.drop b = (src.drop a).drop (b - a) by rw [List.drop_drop]; congr 1; omega]
  exact List.take_append_drop _ _

lemma mem_sliceAt (src : Str) (a b : Nat) (c : Char) (h : c ∈ sliceAt src a b) :
    ∃ i, a ≤ i ∧ i < b ∧ src.get? i = some c := by
  rw [List.mem_iff_get?] at h
  obtain ⟨n, hn⟩ := h
  have hlen : n < (sliceAt src a b).length := by
    rcases List.get?_eq_some.mp hn with ⟨hlt, _⟩
    exact hlt
  have hba : n < b - a := by
    unfold sliceAt at hlen
    rw [List.length_take] at hlen
    omega
  rw [sliceAt_get? src a b n hba] at hn
  exact ⟨a + n, by omega, by omega, hn⟩

lemma sliceAt_head? (src : Str) (a b : Nat) (c : Char) (hab : a < b)
    (h : src.get? a = some c) : (sliceAt src a b).head? = some c := by
  rw [← List.get?_zero, sliceAt_get? src a b 0 (by omega)]
  simpa using h

lemma sliceAt_ne_nil (src : Str) (a b : Nat) (hab : a < b) (ha : a < src.length) :
    sliceAt src a b ≠ [] := by
  have : 0 < (sliceAt src a b).length := by
    unfold sliceAt
    rw [List.length_take, List.length_drop]
    omega
  exact List.ne_nil_of_length_pos this

lemma scanIdentEnd_bounds : ∀ (n : Nat) (src : Str) (pos q : Nat),
    scanIdentEnd n src pos = some q → pos ≤ src.length → pos ≤ q ∧ q ≤ src.length := by
  intro n
  induction n with
  | zero => intro src pos q h _; exact Option.noConfusion h
  | succ n ih =>
    intro src pos q h hp
    rw [scanIdentEnd_succ] at h
    unfold scanIdentEndF at h
    cases hg : src.get? pos with
    | none => simp only [hg, Option.some.injEq] at h; omega
    | some c =>
      simp only [hg] at h
      split at h
      · rw [interp_scanIdentEnd] at h
        have hlt : pos < src.length := by
          rcases List.get?_eq_some.mp hg with ⟨hlt, _⟩; exact hlt
        have := ih src (pos + 1) q h (by omega)
        omega
      · simp only [Option.some.injEq] at h; omega

lemma scanIdentEnd_progress : ∀ (n : Nat) (src : Str) (pos q : Nat) (c : Char),
    src.get? pos = some c → isAlphaNumeric c = true →
    scanIdentEnd n src pos = some q → pos < q := by
  intro n src pos q c hg hc h
  cases n with
  | zero => exact Option.noConfusion h
  | succ n =>
    rw [scanIdentEnd_succ] at h
    unfold scanIdentEndF at h
    simp only [hg, hc, if_true, interp_scanIdentEnd] at h
    have hlt : pos < src.length := by
      rcases List.get?_eq_some.mp hg with ⟨hlt, _⟩; exact hlt
    have := scanIdentEnd_bounds n src (pos + 1) q h (by omega)
    omega

lemma scanStringEnd_bounds : ∀ (n : Nat) (src : Str) (esc : Bool) (pos q : Nat),
    scanStringEnd n src esc pos = some q → pos ≤ src.length → pos < q ∧ q ≤ src.length := by
  intro n
  induction n with
  | zero => intro src esc pos q h _; exact Option.noConfusion h
  | succ n ih =>
    intro src esc pos q h hp
    rw [scanStringEnd_succ] at h
    unfold scanStringEndF at h
    cases hg : src.get? pos with
    | none =>
      simp only [hg, interp_scanStringEnd] at h
      exact ih src false pos q h hp
    | some c =>
      simp only [hg] at h
      have hlt : pos < src.length := by
        rcases List.get?_eq_some.mp hg with ⟨hlt, _⟩; exact hlt
      split at h
      · simp only [Option.some.injEq] at h; omega
      · rw [interp_scanStringEnd] at h
        have := ih src _ (pos + 1) q h (by omega)
        omega

lemma findLineEnd_spec : ∀ (n : Nat) (src : Str) (pos q : Nat),
    findLineEnd n src pos = some q → pos ≤ src.length →
    pos ≤ q ∧ q ≤ src.length ∧
    (q = src.length ∨ ∃ c, src.get? q = some c ∧ isNewline c = true) ∧
    (∀ i, pos ≤ i → i < q → ∀ c, src.get? i = some c → isNewline c = false) := by
  intro n
  induction n with
  | zero => intro src pos q h _; exact Option.noConfusion h
  | succ n ih =>
    intro src pos q h hp
    rw [findLineEnd_succ] at h
    unfold findLineEndF at h
    cases hg : src.get? pos with
    | none =>
      simp only [hg, Option.some.injEq] at h
      have hle : src.length ≤ pos := List.get?_eq_none.mp hg
      refine ⟨by omega, by omega, Or.inl (by omega), ?_⟩
      intro i h1 h2
      omega
    | some c =>
      simp only [hg] at h
      have hlt : pos < src.length := by
        rcases List.get?_eq_some.mp hg with ⟨hlt, _⟩; exact hlt
      split at h
      · next hnl =>
        simp only [Option.some.injEq] at h
        subst h
        exact ⟨le_refl _, by omega, Or.inr ⟨c, hg, hnl⟩, fun i h1 h2 => by omega⟩
      · next hnl =>
        rw [Bool.not_eq_true] at hnl
        rw [interp_findLineEnd] at h
        obtain ⟨hq1, hq2, hq3, hq4⟩ := ih src (pos + 1) q h (by omega)
        refine ⟨by omega, hq2, hq3, ?_⟩
        intro i h1 h2 c' hc'
        rcases Nat.eq_or_lt_of_le h1 with heq | hlt2
        · subst heq
          rw [hg] at hc'
          cases hc'
          exact hnl
        · exact hq4 i hlt2 h2 c' hc'

lemma commentScanStart_spec : ∀ (src : Str) (p : Nat), p ≤ src.length →
    p ≤ commentScanStart src p ∧ commentScanStart src p ≤ src.length ∧
    ∀ i, p ≤ i → i < commentScanStart src p → src.get? i = some '/' := by
  intro src p hp
  cases hg : src.get? p with
  | none =>
    have hcs : commentScanStart src p = p := by unfold commentScanStart; rw [hg]
    rw [hcs]
    exact ⟨le_refl _, hp, fun i h1 h2 => by omega⟩
  | some c1 =>
    have hlt : p < src.length := by
      rcases List.get?_eq_some.mp hg with ⟨hlt, _⟩; exact hlt
    by_cases h1 : c1 = '/'
    · subst h1
      cases hg2 : src.get? (p + 1) with
      | none =>
        have hcs : commentScanStart src p = p + 1 := by
          unfold commentScanStart; rw [hg, hg2]; simp
        have hle : src.length ≤ p + 1 := List.get?_eq_none.mp hg2
        rw [hcs]
        refine ⟨by omega, by omega, ?_⟩
        intro i hi1 hi2
        have : i = p := by omega
        subst this
        exact hg
      | some c2 =>
        have hlt2 : p + 1 < src.length := by
          rcases List.get?_eq_some.mp hg2 with ⟨hlt2, _⟩; exact hlt2
        by_cases h2 : c2 = '/'
        · subst h2
          have hcs : commentScanStart src p = p + 2 := by
            unfold commentScanStart; rw [hg, hg2]; simp
          rw [hcs]
          refine ⟨by omega, by omega, ?_⟩
          intro i hi1 hi2
          rcases Nat.eq_or_lt_of_le hi1 with heq | hlt3
          · subst heq; exact hg
          · have : i = p + 1 := by omega
            subst this; exact hg2
        · have hcs : commentScanStart src p = p := by
            unfold commentScanStart; rw [hg, hg2]; simp [h2]
          rw [hcs]
          exact ⟨le_refl _, by omega, fun i hi1 hi2 => by omega⟩
    · have hcs : commentScanStart src p = p := by
        unfold commentScanStart; rw [hg]; simp [h1]
      rw [hcs]
      exact ⟨le_refl _, by omega, fun i hi1 hi2 => by omega⟩
lemma sliceAt_one (src : Str) (pos : Nat) (c : Char) (hg : src.get? pos = some c) :
    sliceAt src pos (pos + 1) = [c] := by
  have hlt : pos < src.length := by
    rcases List.get?_eq_some.mp hg with ⟨hlt, _⟩; exact hlt
  have hlen : (sliceAt src pos (pos + 1)).length = 1 := by
    rw [sliceAt_length src pos (pos + 1) (by omega) (by omega)]
    omega
  obtain ⟨a, ha⟩ := List.length_eq_one.mp hlen
  have hh := sliceAt_head? src pos (pos + 1) c (by omega) hg
  rw [ha] at hh
  simp only [List.head?_cons, Option.some.injEq] at hh
  rw [ha, hh]

lemma lexNext_spec_punct (src : Str) (pos : Nat) (c : Char) (k : TokenKind)
    (t : Lexeme) (p2 : Nat) (hl : Bool)
    (h : some (({ kind := k, position := pos, value := [c] } : Lexeme), pos + 1, false) = some (t, p2, hl))
    (hg : src.get? pos = some c) (hke : k ≠ TokenKind.eof) (hkc : k ≠ TokenKind.comment) :
    ((t.kind = TokenKind.error ∧ p2 = pos ∧ hl = true) ∨
      (t.position = pos ∧ t.value = sliceAt src pos p2 ∧ pos ≤ p2 ∧ p2 ≤ src.length ∧
        (t.kind = TokenKind.eof → p2 = pos ∧ pos = src.length ∧ hl = true) ∧
        (t.kind ≠ TokenKind.eof → pos < p2 ∧ hl = false))) ∧
    (t.kind = TokenKind.comment → src.get? pos = some '/' ∧
      (p2 = src.length ∨ ∃ c2, src.get? p2 = some c2 ∧ isNewline c2 = true) ∧
      ∀ i, pos ≤ i → i < p2 → ∀ c2, src.get? i = some c2 → isNewline c2 = false) := by
  simp only [Option.some.injEq, Prod.mk.injEq] at h
  obtain ⟨rfl, rfl, rfl⟩ := h
  have hlt : pos < src.length := by
    rcases List.get?_eq_some.mp hg with ⟨hlt, _⟩; exact hlt
  refine ⟨Or.inr ⟨rfl, (sliceAt_one src pos c hg).symm, by omega, by omega, ?_, fun _ => ⟨by omega, rfl⟩⟩, ?_⟩
  · intro he; exact absurd he hke
  · intro hc; exact absurd hc hkc

lemma lexNext_spec : ∀ (n : Nat) (src : Str) (pos : Nat) (t : Lexeme) (p2 : Nat) (hl : Bool),
    pos ≤ src.length → lexNext n src pos = some (t, p2, hl) →
    ((t.kind = TokenKind.error ∧ p2 = pos ∧ hl = true) ∨
      (t.position = pos ∧ t.value = sliceAt src pos p2 ∧ pos ≤ p2 ∧ p2 ≤ src.length ∧
        (t.kind = TokenKind.eof → p2 = pos ∧ pos = src.length ∧ hl = true) ∧
        (t.kind ≠ TokenKind.eof → pos < p2 ∧ hl = false))) ∧
    (t.kind = TokenKind.comment → src.get? pos = some '/' ∧
      (p2 = src.length ∨ ∃ c2, src.get? p2 = some c2 ∧ isNewline c2 = true) ∧
      ∀ i, pos ≤ i → i < p2 → ∀ c2, src.get? i = some c2 → isNewline c2 = false) := by
  intro n src pos t p2 hl hp h
  cases n with
  | zero => exact Option.noConfusion h
  | succ n =>
  rw [lexNext_succ] at h
  unfold lexNextF at h
  cases hg : src.get? pos with
  | none =>
    rw [hg] at h
    split at h
    case h_2 heq => exact Option.noConfusion heq
    simp only [Option.some.injEq, Prod.mk.injEq] at h
    obtain ⟨rfl, rfl, rfl⟩ := h
    have hle : src.length ≤ pos := List.get?_eq_none.mp hg
    refine ⟨Or.inr ⟨rfl, by simp [sliceAt], le_refl _, hp, fun _ => ⟨rfl, by omega, rfl⟩, ?_⟩, ?_⟩
    · intro hne; exact absurd rfl hne
    · intro hc; simp at hc
  | some c =>
  rw [← hg]
  rw [hg] at h
  split at h
  · rename_i heq
    exact Option.noConfusion heq
  rename_i c2 heq
  injection heq with heq2
  subst heq2
  by_cases hc1 : c = '{'
  · rw [if_pos hc1] at h
    exact lexNext_spec_punct src pos c _ t p2 hl h hg (by decide) (by decide)
  rw [if_neg hc1] at h
  by_cases hc2 : c = '}'
  · rw [if_pos hc2] at h
    exact lexNext_spec_punct src pos c _ t p2 hl h hg (by decide) (by decide)
  rw [if_neg hc2] at h
  by_cases hc3 : c = '('
  · rw [if_pos hc3] at h
    exact lexNext_spec_punct src pos c _ t p2 hl h hg (by decide) (by decide)
  rw [if_neg hc3] at h
  by_cases hc4 : c = ')'
  · rw [if_pos hc4] at h
    exact lexNext_spec_punct src pos c _ t p2 hl h hg (by decide) (by decide)
  rw [if_neg hc4] at h
  by_cases hc5 : c = '['
  · rw [if_pos hc5] at h
    exact lexNext_spec_punct src pos c _ t p2 hl h hg (by decide) (by decide)
  rw [if_neg hc5] at h
  by_cases hc6 : c = ']'
  · rw [if_pos hc6] at h
    exact lexNext_spec_punct src pos c _ t p2 hl h hg (by decide) (by decide)
  rw [if_neg hc6] at h
  by_cases hc7 : c = '<'
  · rw [if_pos hc7] at h
    exact lexNext_spec_punct src pos c _ t p2 hl h hg (by decide) (by decide)
  rw [if_neg hc7] at h
  by_cases hc8 : c = '>'
  · rw [if_pos hc8] at h
    exact lexNext_spec_punct src pos c _ t p2 hl h hg (by decide) (by decide)
  rw [if_neg hc8] at h
  by_cases hc9 : c = ';'
  · rw [if_pos hc9] at h
    exact lexNext_spec_punct src pos c _ t p2 hl h hg (by decide) (by decide)
  rw [if_neg hc9] at h
  by_cases hc10 : c = ','
  · rw [if_pos hc10] at h
    exact lexNext_spec_punct src pos c _ t p2 hl h hg (by decide) (by decide)
  rw [if_neg hc10] at h
  by_cases hc11 : c = '.'
  · rw [if_pos hc11] at h
    split at h
    · next hdot1 hdot2 =>
      simp only [Option.some.injEq, Prod.mk.injEq] at h
      obtain ⟨rfl, rfl, rfl⟩ := h
      have hlt2 : pos + 2 < src.length := by
        rcases List.get?_eq_some.mp hdot2 with ⟨hlt2, _⟩; exact hlt2
      refine ⟨Or.inr ⟨rfl, rfl, by omega, by omega, ?_, fun _ => ⟨by omega, rfl⟩⟩, ?_⟩
      · intro he; cases he
      · intro hcm; cases hcm
    · simp only [Option.some.injEq, Prod.mk.injEq] at h
      obtain ⟨rfl, rfl, rfl⟩ := h
      exact ⟨Or.inl ⟨rfl, rfl, rfl⟩, fun hcm => by cases hcm⟩
  rw [if_neg hc11] at h
  by_cases hc12 : c = '='
  · rw [if_pos hc12] at h
    exact lexNext_spec_punct src pos c _ t p2 hl h hg (by decide) (by decide)
  rw [if_neg hc12] at h
  by_cases hc13 : c = '?'
  · rw [if_pos hc13] at h
    exact lexNext_spec_punct src pos c _ t p2 hl h hg (by decide) (by decide)
  rw [if_neg hc13] at h
  by_cases hc14 : c = ':'
  · rw [if_pos hc14] at h
    exact lexNext_spec_punct src pos c _ t p2 hl h hg (by decide) (by decide)
  rw [if_neg hc14] at h
  by_cases hc15 : (isSpace c || isNewline c) = true
  · rw [if_pos hc15] at h
    exact lexNext_spec_punct src pos c _ t p2 hl h hg (by decide) (by decide)
  rw [if_neg hc15] at h
  by_cases hc16 : c = '"'
  · rw [if_pos hc16] at h
    rw [interp_scanStringEnd] at h
    split at h
    · exact Option.noConfusion h
    · next q heq3 =>
      simp only [Option.some.injEq, Prod.mk.injEq] at h
      obtain ⟨rfl, rfl, rfl⟩ := h
      have hlt : pos < src.length := by
        rcases List.get?_eq_some.mp hg with ⟨hlt, _⟩; exact hlt
      have hb := scanStringEnd_bounds n src false (pos + 1) q heq3 (by omega)
      refine ⟨Or.inr ⟨rfl, rfl, by omega, by omega, ?_, fun _ => ⟨by omega, rfl⟩⟩, ?_⟩
      · intro he; cases he
      · intro hcm; cases hcm
  rw [if_neg hc16] at h
  by_cases hc17 : isAlphaNumeric c = true
  · rw [if_pos hc17] at h
    rw [interp_scanIdentEnd] at h
    split at h
    · exact Option.noConfusion h
    · next q heq3 =>
      simp only [Option.some.injEq, Prod.mk.injEq] at h
      obtain ⟨rfl, rfl, rfl⟩ := h
      have hb := scanIdentEnd_bounds n src pos q heq3 hp
      have hprog := scanIdentEnd_progress n src pos q c hg hc17 heq3
      refine ⟨Or.inr ⟨rfl, rfl, by omega, by omega, ?_, fun _ => ⟨by omega, rfl⟩⟩, ?_⟩
      · intro he; cases he
      · intro hcm; cases hcm
  rw [if_neg hc17] at h
  by_cases hc18 : c = '/'
  · rw [if_pos hc18] at h
    subst hc18
    rw [interp_findLineEnd] at h
    split at h
    · exact Option.noConfusion h
    · next q heq3 =>
      simp only [Option.some.injEq, Prod.mk.injEq] at h
      obtain ⟨rfl, rfl, rfl⟩ := h
      have hlt : pos < src.length := by
        rcases List.get?_eq_some.mp hg with ⟨hlt, _⟩; exact hlt
      obtain ⟨hs1, hs2, hs3⟩ := commentScanStart_spec src (pos + 1) (by omega)
      obtain ⟨hq1, hq2, hq3, hq4⟩ := findLineEnd_spec n src (commentScanStart src (pos + 1)) q heq3 hs2
      refine ⟨Or.inr ⟨rfl, rfl, by omega, hq2, ?_, fun _ => ⟨by omega, rfl⟩⟩, ?_⟩
      · intro he; cases he
      · intro _
        refine ⟨hg, hq3, ?_⟩
        intro i hi1 hi2 cc hcc
        rcases Nat.eq_or_lt_of_le hi1 with hieq | higt
        · subst hieq
          rw [hg] at hcc
          injection hcc with hcc2
          subst hcc2
          decide
        · by_cases hi3 : i < commentScanStart src (pos + 1)
          · have hsl := hs3 i (by omega) hi3
            rw [hsl] at hcc
            injection hcc with hcc2
            subst hcc2
            decide
          · exact hq4 i (by omega) hi2 cc hcc
  rw [if_neg hc18] at h
  simp only [Option.some.injEq, Prod.mk.injEq] at h
  obtain ⟨rfl, rfl, rfl⟩ := h
  exact ⟨Or.inl ⟨rfl, rfl, rfl⟩, fun hcm => by cases hcm⟩
lemma scanTokens_spec : ∀ (n : Nat) (src : Str) (pos : Nat) (toks : List Lexeme),
    pos ≤ src.length → scanTokens n src pos = some toks →
    ((∀ t ∈ toks, t.kind ≠ TokenKind.error) →
      (toks.map (fun t => t.value)).flatten = src.drop pos) ∧
    ∀ t ∈ toks,
      (t.kind ≠ TokenKind.error →
        t.value = sliceAt src t.position (t.position + t.value.length)) ∧
      (t.kind ≠ TokenKind.error → t.kind ≠ TokenKind.eof →
        t.position < src.length ∧ t.position + t.value.length ≤ src.length ∧ t.value ≠ []) ∧
      (t.kind = TokenKind.comment →
        t.value.head? = some '/' ∧ (∀ c ∈ t.value, isNewline c = false) ∧
        (t.position + t.value.length = src.length ∨
          ∃ c, src.get? (t.position + t.value.length) = some c ∧ isNewline c = true)) := by
  intro n
  induction n with
  | zero => intro src pos toks _ h; exact Option.noConfusion h
  | succ n ih =>
    intro src pos toks hp h
    rw [scanTokens_succ] at h
    unfold scanTokensF at h
    rw [interp_lexNext, interp_scanTokens] at h
    cases hlx : lexNext n src pos with
    | none => rw [hlx] at h; exact Option.noConfusion h
    | some r =>
      obtain ⟨t, p2, hl⟩ := r
      rw [hlx] at h
      have hspec := lexNext_spec n src pos t p2 hl hp hlx
      cases hl with
      | true =>
        simp at h
        subst h
        constructor
        · intro herr
          have ht := herr t (List.mem_singleton.mpr rfl)
          rcases hspec.1 with ⟨herr2, _, _⟩ | ⟨hpos, hval, hle1, hle2, heof, hneof⟩
          · exact absurd herr2 ht
          · by_cases hk : t.kind = TokenKind.eof
            · obtain ⟨hp2, hplen, _⟩ := heof hk
              subst hplen
              simp only [List.map_cons, List.map_nil, List.flatten_cons, List.flatten_nil,
                List.append_nil]
              rw [hval, hp2]
              simp [sliceAt, List.drop_length]
            · cases (hneof hk).2
        · intro t2 ht2
          have ht2e : t2 = t := List.mem_singleton.mp ht2
          subst ht2e
          refine ⟨?_, ?_, ?_⟩
          · intro he
            rcases hspec.1 with ⟨herr2, _, _⟩ | ⟨hpos, hval, hle1, hle2, heof, hneof⟩
            · exact absurd herr2 he
            · by_cases hk : t2.kind = TokenKind.eof
              · obtain ⟨hp2, hplen, _⟩ := heof hk
                have hv0 : t2.value = [] := by
                  rw [hval, hp2]
                  simp [sliceAt]
                rw [hv0, hpos]
                simp [sliceAt]
              · cases (hneof hk).2
          · intro he hne
            rcases hspec.1 with ⟨herr2, _, _⟩ | ⟨_, _, _, _, _, hneof⟩
            · exact absurd herr2 he
            · cases (hneof hne).2
          · intro hcm
            rcases hspec.1 with ⟨herr2, _, _⟩ | ⟨_, _, _, _, _, hneof⟩
            · rw [hcm] at herr2; cases herr2
            · cases (hneof (fun hE => by rw [hcm] at hE; cases hE)).2
      | false =>
        simp at h
        rcases hspec.1 with ⟨_, _, hht⟩ | ⟨hpos, hval, hle1, hle2, heof, hneof⟩
        · cases hht
        cases hrec : scanTokens n src p2 with
        | none => simp [hrec] at h
        | some ts =>
          simp [hrec] at h
          subst h
          have hih := ih src p2 ts (by omega) hrec
          constructor
          · intro herr
            have ht := herr t (List.mem_cons_self t ts)
            rcases hspec.1 with ⟨herr2, _, _⟩ | ⟨hpos, hval, hle1, hle2, heof, hneof⟩
            · exact absurd herr2 ht
            · simp only [List.map_cons, List.flatten_cons]
              rw [hih.1 (fun t2 ht2 => herr t2 (List.mem_cons_of_mem t ht2)), hval]
              exact sliceAt_append_drop src pos p2 hle1
          · intro t2 ht2
            rcases List.mem_cons.mp ht2 with ht2e | ht2m
            · subst ht2e
              refine ⟨?_, ?_, ?_⟩
              · intro he
                rcases hspec.1 with ⟨herr2, _, _⟩ | ⟨hpos, hval, hle1, hle2, heof, hneof⟩
                · exact absurd herr2 he
                · have hsl : t2.value.length = p2 - pos := by
                    rw [hval, sliceAt_length src pos p2 hle1 hle2]
                  rw [hpos, hsl, hval]
                  have hpp : pos + (p2 - pos) = p2 := by omega
                  rw [hpp]
              · intro he hne
                rcases hspec.1 with ⟨herr2, _, _⟩ | ⟨hpos, hval, hle1, hle2, heof, hneof⟩
                · exact absurd herr2 he
                · obtain ⟨hlt, _⟩ := hneof hne
                  refine ⟨by omega, ?_, ?_⟩
                  · rw [hpos, hval, sliceAt_length src pos p2 hle1 hle2]
                    omega
                  · rw [hval]
                    exact sliceAt_ne_nil src pos p2 hlt (by omega)
              · intro hcm
                rcases hspec.1 with ⟨herr2, _, _⟩ | ⟨hpos, hval, hle1, hle2, heof, hneof⟩
                · rw [hcm] at herr2; cases herr2
                · obtain ⟨hslash, hterm, hintnl⟩ := hspec.2 hcm
                  obtain ⟨hlt, _⟩ := hneof (fun hE => by rw [hcm] at hE; cases hE)
                  have hplen : t2.position + t2.value.length = p2 := by
                    rw [hpos, hval, sliceAt_length src pos p2 hle1 hle2]
                    omega
                  refine ⟨?_, ?_, ?_⟩
                  · rw [hval]
                    exact sliceAt_head? src pos p2 _ hlt hslash
                  · intro c hc
                    rw [hval] at hc
                    obtain ⟨i, hi1, hi2, hgi⟩ := mem_sliceAt src pos p2 c hc
                    exact hintnl i hi1 hi2 c hgi
                  · rw [hplen]
                    exact hterm
            · exact hih.2 t2 ht2m

/-- C5 counterexample: the claim puts every emitted token's span inside the
bounds of the source text, but the final EOF token of an error-free scan sits
at position `src.length`, one past the last character: on the one-character
input `" "` the scan yields a whitespace token and an EOF token at position 1,
which is not a valid index into the source. -/
theorem C5_counterexample :
    ¬ (∀ (toks : List Lexeme), scanTokens 10 " ".toList 0 = some toks →
        ∀ t ∈ toks, t.position < " ".toList.length) := by
  intro hclaim
  have h := hclaim
    [⟨TokenKind.whitespace, 0, [' ']⟩, ⟨TokenKind.eof, 1, []⟩] rfl
    ⟨TokenKind.eof, 1, []⟩ (by decide)
  exact absurd h (by decide)

/-- C5 (amended): on an error-free scan, every non-EOF token's span
`[position, position + |value|)` lies inside the source (start strictly, end
weakly), the token's text is nonempty, and re-slicing the source at each
token's recorded span and concatenating the slices in emission order
reconstructs the input exactly; the EOF token contributes the empty slice at
`src.length`. -/
theorem C5_scanner_round_trip : ∀ (fuel : Nat) (src : Str) (toks : List Lexeme),
    scanTokens fuel src 0 = some toks →
    (∀ t ∈ toks, t.kind ≠ TokenKind.error) →
    ((toks.map (fun t => sliceAt src t.position (t.position + t.value.length))).flatten = src ∧
      ∀ t ∈ toks, t.kind ≠ TokenKind.eof →
        t.position < src.length ∧ t.position + t.value.length ≤ src.length ∧
        t.value ≠ []) := by
  intro fuel src toks h herr
  obtain ⟨hjoin, hper⟩ := scanTokens_spec fuel src 0 toks (Nat.zero_le _) h
  constructor
  · have hmap : toks.map (fun t => sliceAt src t.position (t.position + t.value.length)) =
        toks.map (fun t => t.value) := by
      apply List.map_congr_left
      intro t ht
      exact ((hper t ht).1 (herr t ht)).symm
    rw [hmap, hjoin herr]
    exact List.drop_zero src
  · intro t ht hne
    exact (hper t ht).2.1 (herr t ht) hne

/-- C5 witness: the amended round trip evaluated on the input `"a ;"`. -/
theorem C5_scanner_round_trip_witness :
    (([⟨TokenKind.identifier, 0, ['a']⟩, ⟨TokenKind.whitespace, 1, [' ']⟩,
       ⟨TokenKind.semicolon, 2, [';']⟩, ⟨TokenKind.eof, 3, []⟩] : List Lexeme).map
        (fun t => sliceAt "a ;".toList t.position (t.position + t.value.length))).flatten =
      "a ;".toList ∧
    ∀ t ∈ ([⟨TokenKind.identifier, 0, ['a']⟩, ⟨TokenKind.whitespace, 1, [' ']⟩,
       ⟨TokenKind.semicolon, 2, [';']⟩, ⟨TokenKind.eof, 3, []⟩] : List Lexeme),
      t.kind ≠ TokenKind.eof →
      t.position < "a ;".toList.length ∧
      t.position + t.value.length ≤ "a ;".toList.length ∧ t.value ≠ [] :=
  C5_scanner_round_trip 10 "a ;".toList
    [⟨TokenKind.identifier, 0, ['a']⟩, ⟨TokenKind.whitespace, 1, [' ']⟩,
     ⟨TokenKind.semicolon, 2, [';']⟩, ⟨TokenKind.eof, 3, []⟩] rfl (by decide)

/-- C9 counterexample: the claim says no comment token is produced for a `/`
not followed by a second `/`, but `lexSinglelineComment` ignores the result of
`acceptString("//")` and `performLexSource` enters it on any `/`: scanning
`"/a"` yields a comment token whose text is `"/a"`, which does not start with
the two-character marker `//`. -/
theorem C9_counterexample :
    ¬ (∀ (toks : List Lexeme), scanTokens 10 "/a".toList 0 = some toks →
        ∀ t ∈ toks, t.kind = TokenKind.comment → t.value.take 2 = ['/', '/']) := by
  intro hclaim
  have h := hclaim
    [⟨TokenKind.comment, 0, ['/', 'a']⟩, ⟨TokenKind.eof, 2, []⟩] rfl
    ⟨TokenKind.comment, 0, ['/', 'a']⟩ (by decide) rfl
  exact absurd h (by decide)

/-- C9 (amended): every comment token starts with a single `/` (a second `/`
is not required), contains no newline, and extends to the end of input or to
just before the next newline, the terminator excluded. -/
theorem C9_comment_tokens : ∀ (fuel : Nat) (src : Str) (toks : List Lexeme),
    scanTokens fuel src 0 = some toks →
    ∀ t ∈ toks, t.kind = TokenKind.comment →
      t.value.head? = some '/' ∧ (∀ c ∈ t.value, isNewline c = false) ∧
      (t.position + t.value.length = src.length ∨
        ∃ c, src.get? (t.position + t.value.length) = some c ∧ isNewline c = true) := by
  intro fuel src toks h t ht hcm
  exact ((scanTokens_spec fuel src 0 toks (Nat.zero_le _) h).2 t ht).2.2 hcm

/-- C9 witness: the amended comment shape evaluated on the input `"//x\na"`,
whose comment token is `"//x"` terminated by the newline at offset 3. -/
theorem C9_comment_tokens_witness :
    (['/', '/', 'x'] : Str).head? = some '/' ∧
    (∀ c ∈ (['/', '/', 'x'] : Str), isNewline c = false) ∧
    (0 + (['/', '/', 'x'] : Str).length = "//x\na".toList.length ∨
      ∃ c, "//x\na".toList.get? (0 + (['/', '/', 'x'] : Str).length) = some c ∧
        isNewline c = true) :=
  C9_comment_tokens 10 "//x\na".toList
    [⟨TokenKind.comment, 0, ['/', '/', 'x']⟩, ⟨TokenKind.whitespace, 3, ['\n']⟩,
     ⟨TokenKind.identifier, 4, ['a']⟩, ⟨TokenKind.eof, 5, []⟩] rfl
    ⟨TokenKind.comment, 0, ['/', '/', 'x']⟩ (by decide) rfl

lemma setBase_notNullableHead (t : Ty) (e : Errs) (h : t.notNullableHead) :
    (t.setBase e).notNullableHead := by
  cases t with
  | anyT e2 => trivial
  | sequence e2 t2 => trivial
  | recordT e2 k v => trivial
  | union e2 ts => trivial
  | nullable e2 t2 => exact h.elim
  | parametrized e2 n ts => trivial
  | typeName e2 n => trivial

lemma TyNN.setBase (t : Ty) (e : Errs) (h : TyNN t) : TyNN (t.setBase e) := by
  cases h with
  | anyT => exact TyNN.anyT
  | typeName => exact TyNN.typeName
  | sequence h1 => exact TyNN.sequence h1
  | recordT h1 h2 => exact TyNN.recordT h1 h2
  | union h1 => exact TyNN.union h1
  | parametrized h1 => exact TyNN.parametrized h1
  | nullable h1 h2 => exact TyNN.nullable h1 h2

lemma goodZero : GoodInterp interpZero := by
  constructor <;>
    (intros
     first
       | (rename_i h; exact Option.noConfusion h)
       | (rename_i h x hx; exact Option.noConfusion h))

lemma step_consumeType (I : Interp) (hI : GoodInterp I) :
    ∀ st t st2, consumeTypeF I st = some (t, st2) → TyNN t := by
  intro st t st2 h
  simp only [consumeTypeF] at h
  split at h
  · exact Option.noConfusion h
  next core st3 hbr =>
  obtain ⟨hnn, hhead⟩ := hI.consumeTypeBranch _ _ _ hbr
  split at h
  · exact Option.noConfusion h
  · next tok st5 heq =>
    simp only [Option.some.injEq, Prod.mk.injEq] at h
    obtain ⟨rfl, rfl⟩ := h
    exact TyNN.nullable (TyNN.setBase _ _ hnn) (setBase_notNullableHead _ _ hhead)
  · next tok st5 heq =>
    simp only [Option.some.injEq, Prod.mk.injEq] at h
    obtain ⟨rfl, rfl⟩ := h
    exact TyNN.setBase _ _ hnn

lemma step_consumeTypeBranch (I : Interp) (hI : GoodInterp I) :
    ∀ st t st2, consumeTypeBranchF I st = some (t, st2) →
      TyNN t ∧ t.notNullableHead := by
  intro st t st2 h
  simp only [consumeTypeBranchF] at h
  split at h
  · exact Option.noConfusion h
  · -- `any`
    simp only [Option.some.injEq, Prod.mk.injEq] at h
    obtain ⟨rfl, rfl⟩ := h
    exact ⟨TyNN.anyT, trivial⟩
  split at h
  · exact Option.noConfusion h
  · -- `sequence<T>`
    split at h
    · exact Option.noConfusion h
    next st3 heq1 =>
    split at h
    · exact Option.noConfusion h
    next e st4 heqT =>
    split at h
    · exact Option.noConfusion h
    next st5 heq2 =>
    simp only [Option.some.injEq, Prod.mk.injEq] at h
    obtain ⟨rfl, rfl⟩ := h
    exact ⟨TyNN.sequence (hI.consumeType _ _ _ heqT), trivial⟩
  split at h
  · exact Option.noConfusion h
  · -- `record<K, V>`
    split at h
    · exact Option.noConfusion h
    next st3 heq1 =>
    split at h
    · exact Option.noConfusion h
    next k st4 heqK =>
    split at h
    · exact Option.noConfusion h
    next st5 heq2 =>
    split at h
    · exact Option.noConfusion h
    next v st6 heqV =>
    split at h
    · exact Option.noConfusion h
    next st7 heq3 =>
    simp only [Option.some.injEq, Prod.mk.injEq] at h
    obtain ⟨rfl, rfl⟩ := h
    exact ⟨TyNN.recordT (hI.consumeType _ _ _ heqK) (hI.consumeType _ _ _ heqV), trivial⟩
  split at h
  · exact Option.noConfusion h
  · -- parenthesized union
    split at h
    · exact Option.noConfusion h
    next ts st3 heqU =>
    split at h
    · exact Option.noConfusion h
    next st4 heq1 =>
    simp only [Option.some.injEq, Prod.mk.injEq] at h
    obtain ⟨rfl, rfl⟩ := h
    refine ⟨TyNN.union ?_, trivial⟩
    exact hI.unionTypesLoop _ _ _ _ (fun t ht => absurd ht (List.not_mem_nil t)) heqU
  · -- identifier path
    split at h
    · exact Option.noConfusion h
    next nm st3 heqI =>
    split at h
    · exact Option.noConfusion h
    next nm2 st4 heqX =>
    split at h
    · exact Option.noConfusion h
    · -- parametrized argument list
      split at h
      · exact Option.noConfusion h
      next es st5 heqP =>
      split at h
      · exact Option.noConfusion h
      next st6 heq1 =>
      split at h
      · exact Option.noConfusion h
      next st7 heq2 =>
      simp only [Option.some.injEq, Prod.mk.injEq] at h
      obtain ⟨rfl, rfl⟩ := h
      refine ⟨TyNN.parametrized ?_, trivial⟩
      exact hI.prElemsLoop _ _ _ _ (fun t ht => absurd ht (List.not_mem_nil t)) heqP
    · -- plain type name
      simp only [Option.some.injEq, Prod.mk.injEq] at h
      obtain ⟨rfl, rfl⟩ := h
      exact ⟨TyNN.typeName, trivial⟩

lemma step_unionTypesLoop (I : Interp) (hI : GoodInterp I) :
    ∀ st acc ts st2, (∀ t ∈ acc, TyNN t) →
      unionTypesLoopF I st acc = some (ts, st2) → ∀ t ∈ ts, TyNN t := by
  intro st acc ts st2 hacc h
  simp only [unionTypesLoopF] at h
  split at h
  · exact Option.noConfusion h
  next t0 st3 heqT =>
  have ht0 := hI.consumeType _ _ _ heqT
  split at h
  · exact Option.noConfusion h
  · next st4 heq1 =>
    refine hI.unionTypesLoop _ _ _ _ ?_ h
    intro t ht
    rcases List.mem_cons.mp ht with rfl | hmem
    · exact ht0
    · exact hacc t hmem
  · next st4 heq1 =>
    simp only [Option.some.injEq, Prod.mk.injEq] at h
    obtain ⟨rfl, rfl⟩ := h
    intro t ht
    rw [List.mem_reverse] at ht
    rcases List.mem_cons.mp ht with rfl | hmem
    · exact ht0
    · exact hacc t hmem

lemma step_prElemsLoop (I : Interp) (hI : GoodInterp I) :
    ∀ st acc ts st2, (∀ t ∈ acc, TyNN t) →
      prElemsLoopF I st acc = some (ts, st2) → ∀ t ∈ ts, TyNN t := by
  intro st acc ts st2 hacc h
  simp only [prElemsLoopF] at h
  split at h
  · simp only [Option.some.injEq, Prod.mk.injEq] at h
    obtain ⟨rfl, rfl⟩ := h
    intro t ht
    rw [List.mem_reverse] at ht
    exact hacc t ht
  split at h
  · exact Option.noConfusion h
  next ok tok st3 heq1 =>
  split at h
  · simp only [Option.some.injEq, Prod.mk.injEq] at h
    obtain ⟨rfl, rfl⟩ := h
    intro t ht
    rw [List.mem_reverse] at ht
    exact hacc t ht
  split at h
  · exact Option.noConfusion h
  next t0 st4 heqT =>
  refine hI.prElemsLoop _ _ _ _ ?_ h
  intro t ht
  rcases List.mem_cons.mp ht with rfl | hmem
  · exact hI.consumeType _ _ _ heqT
  · exact hacc t hmem

lemma step_consumeAnnotationPart (I : Interp) (hI : GoodInterp I) :
    ∀ st a st2, consumeAnnotationPartF I st = some (a, st2) → AnnNN a := by
  intro st a st2 h
  simp only [consumeAnnotationPartF] at h
  split at h
  · exact Option.noConfusion h
  next name st3 heqN =>
  split at h
  · exact Option.noConfusion h
  · -- `= ...` follows
    next tok st4 heq1 =>
    split at h
    · exact Option.noConfusion h
    · next vals st5 heqL =>
      simp only [Option.some.injEq, Prod.mk.injEq] at h
      obtain ⟨rfl, rfl⟩ := h
      exact AnnNN.mk (List.forall_mem_nil _)
    · next st5 heqL =>
      split at h
      · exact Option.noConfusion h
      next v st6 heqV =>
      simp only [Option.some.injEq, Prod.mk.injEq] at h
      obtain ⟨rfl, rfl⟩ := h
      exact AnnNN.mk (List.forall_mem_nil _)
  · -- no `=`
    next tok st4 heq1 =>
    split at h
    · -- parenthesized parameter list
      split at h
      · exact Option.noConfusion h
      next ps st5 heqP =>
      simp only [Option.some.injEq, Prod.mk.injEq] at h
      obtain ⟨rfl, rfl⟩ := h
      exact AnnNN.mk (hI.consumeParameters _ _ _ heqP)
    · simp only [Option.some.injEq, Prod.mk.injEq] at h
      obtain ⟨rfl, rfl⟩ := h
      exact AnnNN.mk (List.forall_mem_nil _)

lemma step_annPartsLoop (I : Interp) (hI : GoodInterp I) :
    ∀ st acc anns st2, (∀ a ∈ acc, AnnNN a) →
      annPartsLoopF I st acc = some (anns, st2) → ∀ a ∈ anns, AnnNN a := by
  intro st acc anns st2 hacc h
  simp only [annPartsLoopF] at h
  split at h
  · exact Option.noConfusion h
  next a0 st3 heqA =>
  have ha0 := hI.consumeAnnotationPart _ _ _ heqA
  split at h
  · exact Option.noConfusion h
  · next tok st4 heq1 =>
    refine hI.annPartsLoop _ _ _ _ ?_ h
    intro a ha
    rcases List.mem_cons.mp ha with rfl | hmem
    · exact ha0
    · exact hacc a hmem
  · next tok st4 heq1 =>
    simp only [Option.some.injEq, Prod.mk.injEq] at h
    obtain ⟨rfl, rfl⟩ := h
    intro a ha
    rcases List.mem_cons.mp ha with rfl | hmem
    · exact ha0
    · exact hacc a hmem

lemma step_annGroupsLoop (I : Interp) (hI : GoodInterp I) :
    ∀ st acc anns st2, (∀ a ∈ acc, AnnNN a) →
      annGroupsLoopF I st acc = some (anns, st2) → ∀ a ∈ anns, AnnNN a := by
  intro st acc anns st2 hacc h
  simp only [annGroupsLoopF] at h
  split at h
  · exact Option.noConfusion h
  · next tok st3 heq1 =>
    simp only [Option.some.injEq, Prod.mk.injEq] at h
    obtain ⟨rfl, rfl⟩ := h
    intro a ha
    rw [List.mem_reverse] at ha
    exact hacc a ha
  · next tok st3 heq1 =>
    split at h
    · exact Option.noConfusion h
    next acc2 st4 heqP =>
    have hacc2 := hI.annPartsLoop _ _ _ _ hacc heqP
    split at h
    · exact Option.noConfusion h
    · next tok2 st5 heq2 =>
      simp only [Option.some.injEq, Prod.mk.injEq] at h
      obtain ⟨rfl, rfl⟩ := h
      intro a ha
      rw [List.mem_reverse] at ha
      exact hacc2 a ha
    · next tok2 st5 heq2 =>
      exact hI.annGroupsLoop _ _ _ _ hacc2 h

lemma step_tryConsumeAnnotations (I : Interp) (hI : GoodInterp I) :
    ∀ st anns st2, tryConsumeAnnotationsF I st = some (anns, st2) →
      ∀ a ∈ anns, AnnNN a := by
  intro st anns st2 h
  simp only [tryConsumeAnnotationsF] at h
  exact hI.annGroupsLoop _ _ _ _ (List.forall_mem_nil _) h

lemma step_consumeParameter (I : Interp) (hI : GoodInterp I) :
    ∀ st p st2, consumeParameterF I st = some (p, st2) → ParamNN p := by
  intro st p st2 h
  simp only [consumeParameterF] at h
  split at h
  · exact Option.noConfusion h
  next ann st3 heqA =>
  split at h
  · exact Option.noConfusion h
  next opt st4 heq1 =>
  split at h
  · exact Option.noConfusion h
  next ty st5 heqT =>
  split at h
  · exact Option.noConfusion h
  next vard tok st6 heq2 =>
  split at h
  · exact Option.noConfusion h
  next name st7 heqN =>
  split at h
  · exact Option.noConfusion h
  next init st8 heq3 =>
  simp only [Option.some.injEq, Prod.mk.injEq] at h
  obtain ⟨rfl, rfl⟩ := h
  exact ParamNN.mk (hI.consumeType _ _ _ heqT) (hI.tryConsumeAnnotations _ _ _ heqA)

lemma step_paramsLoop (I : Interp) (hI : GoodInterp I) :
    ∀ st acc ps st2, (∀ p ∈ acc, ParamNN p) →
      paramsLoopF I st acc = some (ps, st2) → ∀ p ∈ ps, ParamNN p := by
  intro st acc ps st2 hacc h
  simp only [paramsLoopF] at h
  split at h
  · exact Option.noConfusion h
  next p0 st3 heqP =>
  have hp0 := hI.consumeParameter _ _ _ heqP
  have hcons : ∀ p ∈ p0 :: acc, ParamNN p := by
    intro p hp
    rcases List.mem_cons.mp hp with rfl | hmem
    · exact hp0
    · exact hacc p hmem
  split at h
  · exact Option.noConfusion h
  · next tok st4 heq1 =>
    simp only [Option.some.injEq, Prod.mk.injEq] at h
    obtain ⟨rfl, rfl⟩ := h
    intro p hp
    rw [List.mem_reverse] at hp
    exact hcons p hp
  · next tok st4 heq1 =>
    split at h
    · exact Option.noConfusion h
    · next tok2 st5 heq2 =>
      exact hI.paramsLoop _ _ _ _ hcons h
    · next tok2 st5 heq2 =>
      simp only [Option.some.injEq, Prod.mk.injEq] at h
      obtain ⟨rfl, rfl⟩ := h
      intro p hp
      rw [List.mem_reverse] at hp
      exact hcons p hp

lemma step_consumeParameters (I : Interp) (hI : GoodInterp I) :
    ∀ st ps st2, consumeParametersF I st = some (ps, st2) → ∀ p ∈ ps, ParamNN p := by
  intro st ps st2 h
  simp only [consumeParametersF] at h
  split at h
  · exact Option.noConfusion h
  next ok tok st3 heq1 =>
  split at h
  · exact Option.noConfusion h
  · next tok2 st4 heq2 =>
    simp only [Option.some.injEq, Prod.mk.injEq] at h
    obtain ⟨rfl, rfl⟩ := h
    exact List.forall_mem_nil _
  · next tok2 st4 heq2 =>
    exact hI.paramsLoop _ _ _ _ (List.forall_mem_nil _) h

lemma step_consumeMember (I : Interp) (hI : GoodInterp I) :
    ∀ dict st m st2, consumeMemberF I dict st = some (m, st2) →
      MemberNN m ∧ (dict = true → m.Attribute = true ∧ m.Parameters = []) := by
  intro dict st m st2 h
  simp only [consumeMemberF] at h
  split at h
  · exact Option.noConfusion h
  next ann0 st3 heqA0 =>
  have hann0 := hI.tryConsumeAnnotations _ _ _ heqA0
  split at h
  · exact Option.noConfusion h
  next spec st4 heqS =>
  split at h
  · exact Option.noConfusion h
  next isConst st5 heq1 =>
  split at h
  · exact Option.noConfusion h
  next isStatic st6 heq2 =>
  split at h
  · exact Option.noConfusion h
  next isReadonly st7 heq3 =>
  split at h
  · exact Option.noConfusion h
  next isRequired st8 heq4 =>
  split at h
  · exact Option.noConfusion h
  next attrKw st9 heq5 =>
  split at h
  · exact Option.noConfusion h
  next ann st10 heqA =>
  have hann : ∀ a ∈ ann, AnnNN a := by
    split at heqA
    · exact hI.tryConsumeAnnotations _ _ _ heqA
    · simp only [Option.some.injEq, Prod.mk.injEq] at heqA
      obtain ⟨rfl, rfl⟩ := heqA
      exact hann0
  split at h
  · exact Option.noConfusion h
  next ty st11 heqT =>
  have hty := hI.consumeType _ _ _ heqT
  split at h
  · exact Option.noConfusion h
  next name? st12 heqN =>
  split at h
  · exact Option.noConfusion h
  next params st13 heqP =>
  have hparams : ∀ p ∈ params, ParamNN p := by
    split at heqP
    · exact hI.consumeParameters _ _ _ heqP
    · simp only [Option.some.injEq, Prod.mk.injEq] at heqP
      obtain ⟨rfl, rfl⟩ := heqP
      exact List.forall_mem_nil _
  have hdictP : dict = true → params = [] := by
    intro hd
    subst hd
    split at heqP
    · next hcond =>
      simp at hcond
    · simp only [Option.some.injEq, Prod.mk.injEq] at heqP
      obtain ⟨rfl, rfl⟩ := heqP
      rfl
  split at h
  · exact Option.noConfusion h
  next init st14 heq6 =>
  simp only [Option.some.injEq, Prod.mk.injEq] at h
  obtain ⟨rfl, rfl⟩ := h
  refine ⟨⟨hty, hparams, hann⟩, ?_⟩
  intro hd
  refine ⟨?_, hdictP hd⟩
  subst hd
  simp

lemma step_consumeEnum (I : Interp) (hI : GoodInterp I) :
    ∀ ann st d st2, (∀ a ∈ ann, AnnNN a) →
      consumeEnumF I ann st = some (d, st2) → DeclNN d ∧ DeclDictOK d := by
  intro ann st d st2 hann h
  simp only [consumeEnumF] at h
  split at h
  · exact Option.noConfusion h
  next ok st3 heq1 =>
  split at h
  · exact Option.noConfusion h
  next name st4 heqN =>
  split at h
  · exact Option.noConfusion h
  next ok2 tok st5 heq2 =>
  split at h
  · exact Option.noConfusion h
  next vals st6 heqV =>
  split at h
  · exact Option.noConfusion h
  next ok3 tok2 st7 heq3 =>
  split at h
  · exact Option.noConfusion h
  next ok4 tok3 st8 heq4 =>
  split at h
  · exact Option.noConfusion h
  next ok5 tok4 st9 heq5 =>
  simp only [Option.some.injEq, Prod.mk.injEq] at h
  obtain ⟨rfl, rfl⟩ := h
  exact ⟨hann, trivial⟩

lemma step_consumeTypedef (I : Interp) (hI : GoodInterp I) :
    ∀ ann st d st2, (∀ a ∈ ann, AnnNN a) →
      consumeTypedefF I ann st = some (d, st2) → DeclNN d ∧ DeclDictOK d := by
  intro ann st d st2 hann h
  simp only [consumeTypedefF] at h
  split at h
  · exact Option.noConfusion h
  next ok st3 heq1 =>
  split at h
  · exact Option.noConfusion h
  next ty st4 heqT =>
  split at h
  · exact Option.noConfusion h
  next name st5 heqN =>
  split at h
  · exact Option.noConfusion h
  next ok2 tok st6 heq2 =>
  simp only [Option.some.injEq, Prod.mk.injEq] at h
  obtain ⟨rfl, rfl⟩ := h
  exact ⟨⟨hann, hI.consumeType _ _ _ heqT⟩, trivial⟩

lemma step_interfaceMemberStep (I : Interp) (hI : GoodInterp I) :
    ∀ st mems ops iter mems2 ops2 iter2 st2,
      (∀ m ∈ mems, MemberNN m) → (∀ i, iter = some i → IterNN i) →
      interfaceMemberStepF I st mems ops iter = some (mems2, ops2, iter2, st2) →
      (∀ m ∈ mems2, MemberNN m) ∧ ∀ i, iter2 = some i → IterNN i := by
  intro st mems ops iter mems2 ops2 iter2 st2 hmems hiter h
  simp only [interfaceMemberStepF] at h
  split at h
  · exact Option.noConfusion h
  next m0 st3 heqM =>
  have hm0 := (hI.consumeMember _ _ _ _ heqM).1
  have hcons : ∀ m ∈ m0 :: mems, MemberNN m := by
    intro m hm
    rcases List.mem_cons.mp hm with rfl | hmem
    · exact hm0
    · exact hmems m hmem
  split at h
  · exact Option.noConfusion h
  · next tok st4 heq1 =>
    exact hI.interfaceBody _ _ _ _ _ _ _ _ hcons hiter h
  · next tok st4 heq1 =>
    simp only [Option.some.injEq, Prod.mk.injEq] at h
    obtain ⟨rfl, rfl, rfl, rfl⟩ := h
    refine ⟨?_, hiter⟩
    intro m hm
    rw [List.mem_reverse] at hm
    exact hcons m hm

lemma step_interfaceBody (I : Interp) (hI : GoodInterp I) :
    ∀ st mems ops iter mems2 ops2 iter2 st2,
      (∀ m ∈ mems, MemberNN m) → (∀ i, iter = some i → IterNN i) →
      interfaceBodyF I st mems ops iter = some (mems2, ops2, iter2, st2) →
      (∀ m ∈ mems2, MemberNN m) ∧ ∀ i, iter2 = some i → IterNN i := by
  intro st mems ops iter mems2 ops2 iter2 st2 hmems hiter h
  simp only [interfaceBodyF] at h
  split at h
  · -- `}` reached
    simp only [Option.some.injEq, Prod.mk.injEq] at h
    obtain ⟨rfl, rfl, rfl, rfl⟩ := h
    refine ⟨?_, hiter⟩
    intro m hm
    rw [List.mem_reverse] at hm
    exact hmems m hm
  split at h
  · -- custom-operation keyword current
    split at h
    · exact Option.noConfusion h
    next nt heqNT =>
    split at h
    · -- `;` directly after: a custom op
      split at h
      · exact Option.noConfusion h
      next opName st3 heqN =>
      split at h
      · exact Option.noConfusion h
      next ok tok st4 heq1 =>
      split at h
      · exact hI.interfaceBody _ _ _ _ _ _ _ _ hmems hiter h
      · simp only [Option.some.injEq, Prod.mk.injEq] at h
        obtain ⟨rfl, rfl, rfl, rfl⟩ := h
        refine ⟨?_, hiter⟩
        intro m hm
        rw [List.mem_reverse] at hm
        exact hmems m hm
    · exact hI.interfaceMemberStep _ _ _ _ _ _ _ _ hmems hiter h
  split at h
  · -- `iterable<...>`
    split at h
    · exact Option.noConfusion h
    next ok0 tok0 st3 heq0 =>
    split at h
    · exact Option.noConfusion h
    next ok1 tok1 st4 heq1 =>
    split at h
    · exact Option.noConfusion h
    next elem st5 heqT =>
    have helem := hI.consumeType _ _ _ heqT
    split at h
    · exact Option.noConfusion h
    next okC tok2 st6 heq2 =>
    split at h
    · exact Option.noConfusion h
    next key elem2 st7 heqK =>
    have hke : (∀ k, key = some k → TyNN k) ∧ TyNN elem2 := by
      split at heqK
      · split at heqK
        · exact Option.noConfusion heqK
        next e2 st8 heqT2 =>
        simp only [Option.some.injEq, Prod.mk.injEq] at heqK
        obtain ⟨⟨rfl, rfl⟩, rfl⟩ := heqK
        refine ⟨?_, hI.consumeType _ _ _ heqT2⟩
        intro k hk
        injection hk with hk2
        subst hk2
        exact helem
      · simp only [Option.some.injEq, Prod.mk.injEq] at heqK
        obtain ⟨⟨rfl, rfl⟩, rfl⟩ := heqK
        exact ⟨fun k hk => Option.noConfusion hk, helem⟩
    split at h
    · exact Option.noConfusion h
    next ok3 tok3 st9 heq3 =>
    have hiter2 : ∀ i, some (Iterable.mk (closeNode st9).1 key elem2) = some i → IterNN i := by
      intro i hi
      injection hi with hi2
      subst hi2
      exact ⟨hke.1, hke.2⟩
    split at h
    · exact Option.noConfusion h
    · next tok4 st10 heq4 =>
      exact hI.interfaceBody _ _ _ _ _ _ _ _ hmems hiter2 h
    · next tok4 st10 heq4 =>
      simp only [Option.some.injEq, Prod.mk.injEq] at h
      obtain ⟨rfl, rfl, rfl, rfl⟩ := h
      refine ⟨?_, hiter2⟩
      intro m hm
      rw [List.mem_reverse] at hm
      exact hmems m hm
  · exact hI.interfaceMemberStep _ _ _ _ _ _ _ _ hmems hiter h

lemma step_consumeInterface (I : Interp) (hI : GoodInterp I) :
    ∀ part cb ann st d st2, (∀ a ∈ ann, AnnNN a) →
      consumeInterfaceF I part cb ann st = some (d, st2) →
      DeclNN d ∧ DeclDictOK d := by
  intro part cb ann st d st2 hann h
  simp only [consumeInterfaceF] at h
  split at h
  · exact Option.noConfusion h
  next name st3 heqN =>
  split at h
  · exact Option.noConfusion h
  next okC tok st4 heq1 =>
  split at h
  · exact Option.noConfusion h
  next inherits st5 heq2 =>
  split at h
  · exact Option.noConfusion h
  next ok2 tok2 st6 heq3 =>
  split at h
  · exact Option.noConfusion h
  next mems ops iter st7 heqB =>
  obtain ⟨hmems, hiter⟩ := hI.interfaceBody _ _ _ _ _ _ _ _
    (List.forall_mem_nil _) (fun i hi => Option.noConfusion hi) heqB
  split at h
  · exact Option.noConfusion h
  next ok3 tok3 st8 heq4 =>
  split at h
  · exact Option.noConfusion h
  next ok4 tok4 st9 heq5 =>
  simp only [Option.some.injEq, Prod.mk.injEq] at h
  obtain ⟨rfl, rfl⟩ := h
  exact ⟨⟨hann, hmems, hiter⟩, trivial⟩

lemma step_mixinMemberStep (I : Interp) (hI : GoodInterp I) :
    ∀ st mems ops iter mems2 ops2 iter2 st2,
      (∀ m ∈ mems, MemberNN m) → (∀ i, iter = some i → IterNN i) →
      mixinMemberStepF I st mems ops iter = some (mems2, ops2, iter2, st2) →
      (∀ m ∈ mems2, MemberNN m) ∧ ∀ i, iter2 = some i → IterNN i := by
  intro st mems ops iter mems2 ops2 iter2 st2 hmems hiter h
  simp only [mixinMemberStepF] at h
  split at h
  · exact Option.noConfusion h
  next m0 st3 heqM =>
  have hm0 := (hI.consumeMember _ _ _ _ heqM).1
  have hcons : ∀ m ∈ m0 :: mems, MemberNN m := by
    intro m hm
    rcases List.mem_cons.mp hm with rfl | hmem
    · exact hm0
    · exact hmems m hmem
  split at h
  · exact Option.noConfusion h
  · next tok st4 heq1 =>
    exact hI.mixinBody _ _ _ _ _ _ _ _ hcons hiter h
  · next tok st4 heq1 =>
    simp only [Option.some.injEq, Prod.mk.injEq] at h
    obtain ⟨rfl, rfl, rfl, rfl⟩ := h
    refine ⟨?_, hiter⟩
    intro m hm
    rw [List.mem_reverse] at hm
    exact hcons m hm

lemma step_mixinBody (I : Interp) (hI : GoodInterp I) :
    ∀ st mems ops iter mems2 ops2 iter2 st2,
      (∀ m ∈ mems, MemberNN m) → (∀ i, iter = some i → IterNN i) →
      mixinBodyF I st mems ops iter = some (mems2, ops2, iter2, st2) →
      (∀ m ∈ mems2, MemberNN m) ∧ ∀ i, iter2 = some i → IterNN i := by
  intro st mems ops iter mems2 ops2 iter2 st2 hmems hiter h
  simp only [mixinBodyF] at h
  split at h
  · -- `}` reached
    simp only [Option.some.injEq, Prod.mk.injEq] at h
    obtain ⟨rfl, rfl, rfl, rfl⟩ := h
    refine ⟨?_, hiter⟩
    intro m hm
    rw [List.mem_reverse] at hm
    exact hmems m hm
  split at h
  · -- custom operation
    split at h
    · exact Option.noConfusion h
    next ok0 tok0 st3 heq0 =>
    split at h
    · exact Option.noConfusion h
    next ok tok st4 heq1 =>
    split at h
    · exact hI.mixinBody _ _ _ _ _ _ _ _ hmems hiter h
    · simp only [Option.some.injEq, Prod.mk.injEq] at h
      obtain ⟨rfl, rfl, rfl, rfl⟩ := h
      refine ⟨?_, hiter⟩
      intro m hm
      rw [List.mem_reverse] at hm
      exact hmems m hm
  split at h
  · -- `iterable<T>`
    split at h
    · exact Option.noConfusion h
    next ok0 tok0 st3 heq0 =>
    split at h
    · exact Option.noConfusion h
    next ok1 tok1 st4 heq1 =>
    split at h
    · exact Option.noConfusion h
    next elem st5 heqT =>
    have helem := hI.consumeType _ _ _ heqT
    split at h
    · exact Option.noConfusion h
    next ok2 tok2 st6 heq2 =>
    have hiter2 : ∀ i, some (Iterable.mk (closeNode st6).1 none elem) = some i → IterNN i := by
      intro i hi
      injection hi with hi2
      subst hi2
      exact ⟨fun k hk => Option.noConfusion hk, helem⟩
    split at h
    · exact Option.noConfusion h
    · next tok3 st7 heq3 =>
      exact hI.mixinBody _ _ _ _ _ _ _ _ hmems hiter2 h
    · next tok3 st7 heq3 =>
      simp only [Option.some.injEq, Prod.mk.injEq] at h
      obtain ⟨rfl, rfl, rfl, rfl⟩ := h
      refine ⟨?_, hiter2⟩
      intro m hm
      rw [List.mem_reverse] at hm
      exact hmems m hm
  · exact hI.mixinMemberStep _ _ _ _ _ _ _ _ hmems hiter h

lemma step_consumeMixin (I : Interp) (hI : GoodInterp I) :
    ∀ ann st d st2, (∀ a ∈ ann, AnnNN a) →
      consumeMixinF I ann st = some (d, st2) → DeclNN d ∧ DeclDictOK d := by
  intro ann st d st2 hann h
  simp only [consumeMixinF] at h
  split at h
  · exact Option.noConfusion h
  next name st3 heqN =>
  split at h
  · exact Option.noConfusion h
  next okC tok st4 heq1 =>
  split at h
  · exact Option.noConfusion h
  next inherits st5 heq2 =>
  split at h
  · exact Option.noConfusion h
  next ok2 tok2 st6 heq3 =>
  split at h
  · exact Option.noConfusion h
  next mems ops iter st7 heqB =>
  obtain ⟨hmems, hiter⟩ := hI.mixinBody _ _ _ _ _ _ _ _
    (List.forall_mem_nil _) (fun i hi => Option.noConfusion hi) heqB
  split at h
  · exact Option.noConfusion h
  next ok3 tok3 st8 heq4 =>
  split at h
  · exact Option.noConfusion h
  next ok4 tok4 st9 heq5 =>
  simp only [Option.some.injEq, Prod.mk.injEq] at h
  obtain ⟨rfl, rfl⟩ := h
  exact ⟨⟨hann, hmems, hiter⟩, trivial⟩

lemma step_consumeInterfaceOrMixin (I : Interp) (hI : GoodInterp I) :
    ∀ ann st d st2, (∀ a ∈ ann, AnnNN a) →
      consumeInterfaceOrMixinF I ann st = some (d, st2) →
      DeclNN d ∧ DeclDictOK d := by
  intro ann st d st2 hann h
  simp only [consumeInterfaceOrMixinF] at h
  split at h
  · exact Option.noConfusion h
  next part st3 heq1 =>
  split at h
  · exact Option.noConfusion h
  next ok2 st4 heq2 =>
  split at h
  · exact Option.noConfusion h
  · next st5 heq3 =>
    exact hI.consumeMixin _ _ _ _ hann h
  · next st5 heq3 =>
    exact hI.consumeInterface _ _ _ _ _ _ hann h

lemma step_dictLoop (I : Interp) (hI : GoodInterp I) :
    ∀ st acc ms st2,
      (∀ m ∈ acc, MemberNN m ∧ m.Attribute = true ∧ m.Parameters = []) →
      dictLoopF I st acc = some (ms, st2) →
      ∀ m ∈ ms, MemberNN m ∧ m.Attribute = true ∧ m.Parameters = [] := by
  intro st acc ms st2 hacc h
  simp only [dictLoopF] at h
  split at h
  · simp only [Option.some.injEq, Prod.mk.injEq] at h
    obtain ⟨rfl, rfl⟩ := h
    intro m hm
    rw [List.mem_reverse] at hm
    exact hacc m hm
  split at h
  · exact Option.noConfusion h
  next m0 st3 heqM =>
  obtain ⟨hm0, hd0⟩ := hI.consumeMember _ _ _ _ heqM
  have hcons : ∀ m ∈ m0 :: acc, MemberNN m ∧ m.Attribute = true ∧ m.Parameters = [] := by
    intro m hm
    rcases List.mem_cons.mp hm with rfl | hmem
    · exact ⟨hm0, (hd0 rfl).1, (hd0 rfl).2⟩
    · exact hacc m hmem
  split at h
  · exact Option.noConfusion h
  · next tok st4 heq1 =>
    exact hI.dictLoop _ _ _ _ hcons h
  · next tok st4 heq1 =>
    simp only [Option.some.injEq, Prod.mk.injEq] at h
    obtain ⟨rfl, rfl⟩ := h
    intro m hm
    rw [List.mem_reverse] at hm
    exact hcons m hm

lemma step_consumeDictionary (I : Interp) (hI : GoodInterp I) :
    ∀ ann st d st2, (∀ a ∈ ann, AnnNN a) →
      consumeDictionaryF I ann st = some (d, st2) → DeclNN d ∧ DeclDictOK d := by
  intro ann st d st2 hann h
  simp only [consumeDictionaryF] at h
  split at h
  · exact Option.noConfusion h
  next part st3 heq1 =>
  split at h
  · exact Option.noConfusion h
  next ok2 st4 heq2 =>
  split at h
  · exact Option.noConfusion h
  next name st5 heqN =>
  split at h
  · exact Option.noConfusion h
  next okC tok st6 heq3 =>
  split at h
  · exact Option.noConfusion h
  next inherits st7 heq4 =>
  split at h
  · exact Option.noConfusion h
  next ok3 tok2 st8 heq5 =>
  split at h
  · exact Option.noConfusion h
  next mems st9 heqL =>
  have hmems := hI.dictLoop _ _ _ _ (List.forall_mem_nil _) heqL
  split at h
  · exact Option.noConfusion h
  next ok4 tok3 st10 heq6 =>
  split at h
  · exact Option.noConfusion h
  next ok5 tok4 st11 heq7 =>
  simp only [Option.some.injEq, Prod.mk.injEq] at h
  obtain ⟨rfl, rfl⟩ := h
  constructor
  · exact ⟨hann, fun m hm => (hmems m hm).1⟩
  · intro m hm
    exact ⟨(hmems m hm).2.1, (hmems m hm).2.2⟩

lemma step_consumeDeclaration (I : Interp) (hI : GoodInterp I) :
    ∀ st d st2, consumeDeclarationF I st = some (d, st2) →
      DeclNN d ∧ DeclDictOK d := by
  intro st d st2 h
  simp only [consumeDeclarationF] at h
  split at h
  · exact Option.noConfusion h
  next ann st3 heqA =>
  have hann := hI.tryConsumeAnnotations _ _ _ heqA
  split at h
  · exact hI.consumeEnum _ _ _ _ hann h
  split at h
  · exact hI.consumeTypedef _ _ _ _ hann h
  split at h
  · -- `callback ...`
    split at h
    · exact Option.noConfusion h
    next v st4 heq1 =>
    split at h
    · exact Option.noConfusion h
    · next st5 heq2 =>
      exact hI.consumeInterface _ _ _ _ _ _ hann h
    · next st5 heq2 =>
      split at h
      · exact Option.noConfusion h
      next name st6 heqN =>
      split at h
      · exact Option.noConfusion h
      next ok tok st7 heq3 =>
      split at h
      · exact Option.noConfusion h
      next ret st8 heqT =>
      split at h
      · exact Option.noConfusion h
      next par st9 heqP =>
      split at h
      · exact Option.noConfusion h
      next ok2 tok2 st10 heq4 =>
      simp only [Option.some.injEq, Prod.mk.injEq] at h
      obtain ⟨rfl, rfl⟩ := h
      exact ⟨⟨hI.consumeType _ _ _ heqT, hI.consumeParameters _ _ _ heqP⟩, trivial⟩
  split at h
  · exact hI.consumeInterfaceOrMixin _ _ _ _ hann h
  split at h
  · exact hI.consumeDictionary _ _ _ _ hann h
  split at h
  · exact Option.noConfusion h
  next nextIface nextDict heqNX =>
  split at h
  · exact hI.consumeInterfaceOrMixin _ _ _ _ hann h
  split at h
  · exact hI.consumeDictionary _ _ _ _ hann h
  split at h
  · exact Option.noConfusion h
  next st4 heqS1 =>
  split at h
  · exact Option.noConfusion h
  next st5 heqS2 =>
  split at h
  · exact Option.noConfusion h
  next ok tok st6 heq5 =>
  simp only [Option.some.injEq, Prod.mk.injEq] at h
  obtain ⟨rfl, rfl⟩ := h
  exact ⟨⟨List.forall_mem_nil _, List.forall_mem_nil _,
    fun i hi => Option.noConfusion hi⟩, trivial⟩

lemma step_topLoop (I : Interp) (hI : GoodInterp I) :
    ∀ st acc f st2, (∀ d ∈ acc, DeclNN d ∧ DeclDictOK d) →
      topLoopF I st acc = some (f, st2) → FileNN f ∧ FileDictOK f := by
  intro st acc f st2 hacc h
  simp only [topLoopF] at h
  split at h
  · -- EOF: close the file
    simp only [Option.some.injEq, Prod.mk.injEq] at h
    obtain ⟨rfl, rfl⟩ := h
    constructor
    · intro d hd
      replace hd : d ∈ acc.reverse := hd
      rw [List.mem_reverse] at hd
      exact (hacc d hd).1
    · intro d hd
      replace hd : d ∈ acc.reverse := hd
      rw [List.mem_reverse] at hd
      exact (hacc d hd).2
  split at h
  · -- a declaration keyword
    split at h
    · exact Option.noConfusion h
    next d0 st3 heqD =>
    have hd0 := hI.consumeDeclaration _ _ _ heqD
    refine hI.topLoop _ _ _ _ ?_ h
    intro d hd
    rcases List.mem_cons.mp hd with rfl | hmem
    · exact hd0
    · exact hacc d hmem
  split at h
  · -- bare identifier: implements / includes
    split at h
    · exact Option.noConfusion h
    next name st3 heqN =>
    split at h
    · exact Option.noConfusion h
    · next st4 heq1 =>
      split at h
      · exact Option.noConfusion h
      next source st5 heqS =>
      split at h
      · exact Option.noConfusion h
      next ok tok st6 heq2 =>
      refine hI.topLoop _ _ _ _ ?_ h
      intro d hd
      rcases List.mem_cons.mp hd with rfl | hmem
      · exact ⟨trivial, trivial⟩
      · exact hacc d hmem
    · next st4 heq1 =>
      split at h
      · exact Option.noConfusion h
      · next st5 heq2 =>
        split at h
        · exact Option.noConfusion h
        next source st6 heqS =>
        split at h
        · exact Option.noConfusion h
        next ok tok st7 heq3 =>
        refine hI.topLoop _ _ _ _ ?_ h
        intro d hd
        rcases List.mem_cons.mp hd with rfl | hmem
        · exact ⟨trivial, trivial⟩
        · exact hacc d hmem
      · next st5 heq2 =>
        simp only [Option.some.injEq, Prod.mk.injEq] at h
        obtain ⟨rfl, rfl⟩ := h
        constructor
        · intro d hd
          replace hd : d ∈ acc.reverse := hd
          rw [List.mem_reverse] at hd
          exact (hacc d hd).1
        · intro d hd
          replace hd : d ∈ acc.reverse := hd
          rw [List.mem_reverse] at hd
          exact (hacc d hd).2
  · -- unexpected token at root level
    simp only [Option.some.injEq, Prod.mk.injEq] at h
    obtain ⟨rfl, rfl⟩ := h
    constructor
    · intro d hd
      replace hd : d ∈ acc.reverse := hd
      rw [List.mem_reverse] at hd
      exact (hacc d hd).1
    · intro d hd
      replace hd : d ∈ acc.reverse := hd
      rw [List.mem_reverse] at hd
      exact (hacc d hd).2

lemma step_consumeTopLevel (I : Interp) (hI : GoodInterp I) :
    ∀ st f st2, consumeTopLevelF I st = some (f, st2) →
      FileNN f ∧ FileDictOK f := by
  intro st f st2 h
  simp only [consumeTopLevelF] at h
  split at h
  · exact Option.noConfusion h
  next st3 heqC =>
  split at h
  · simp only [Option.some.injEq, Prod.mk.injEq] at h
    obtain ⟨rfl, rfl⟩ := h
    exact ⟨fun d hd => absurd hd (List.not_mem_nil d),
      fun d hd => absurd hd (List.not_mem_nil d)⟩
  · exact hI.topLoop _ _ _ _ (List.forall_mem_nil _) h

lemma goodStep (I : Interp) (hI : GoodInterp I) : GoodInterp (interpStep I) :=
  { consumeType := step_consumeType I hI
    consumeTypeBranch := step_consumeTypeBranch I hI
    unionTypesLoop := step_unionTypesLoop I hI
    prElemsLoop := step_prElemsLoop I hI
    tryConsumeAnnotations := step_tryConsumeAnnotations I hI
    annGroupsLoop := step_annGroupsLoop I hI
    annPartsLoop := step_annPartsLoop I hI
    consumeAnnotationPart := step_consumeAnnotationPart I hI
    consumeParameters := step_consumeParameters I hI
    paramsLoop := step_paramsLoop I hI
    consumeParameter := step_consumeParameter I hI
    consumeMember := step_consumeMember I hI
    consumeEnum := step_consumeEnum I hI
    consumeTypedef := step_consumeTypedef I hI
    interfaceMemberStep := step_interfaceMemberStep I hI
    interfaceBody := step_interfaceBody I hI
    consumeInterface := step_consumeInterface I hI
    mixinMemberStep := step_mixinMemberStep I hI
    mixinBody := step_mixinBody I hI
    consumeMixin := step_consumeMixin I hI
    consumeInterfaceOrMixin := step_consumeInterfaceOrMixin I hI
    dictLoop := step_dictLoop I hI
    consumeDictionary := step_consumeDictionary I hI
    consumeDeclaration := step_consumeDeclaration I hI
    topLoop := step_topLoop I hI
    consumeTopLevel := step_consumeTopLevel I hI }

lemma goodInterp (n : Nat) : GoodInterp (interp n) := by
  induction n with
  | zero => exact goodZero
  | succ n ih => exact goodStep _ ih

/-- C4: for every input, no nullable node in a returned tree directly wraps
another nullable node: `consumeType` consumes at most one trailing `?`, its
wrap is applied to a `consumeTypeBranch` result, whose head is never nullable
on any branch, so every `nullable` wraps a non-nullable base type.  Proven for
every fuel by induction over the fuel-indexed interpreter. -/
theorem C4_no_double_nullable : ∀ (fuel : Nat) (input : Str) (f : File),
    Parse fuel input = some f → FileNN f := by
  intro fuel input f h
  unfold Parse at h
  split at h
  · exact Option.noConfusion h
  next f2 st2 heq =>
  simp only [Option.some.injEq] at h
  subst h
  exact ((goodInterp fuel).consumeTopLevel _ _ _ heq).1

/-- C4 witness: the nullable-of-union input `typedef long? x;` parses to a
tree satisfying the invariant. -/
theorem C4_no_double_nullable_witness :
    Parse 200 "typedef long? x;".toList =
      some (File.mk [] [Decl.typedef [] [] "x".toList
        (Ty.nullable [] (Ty.typeName [] "long".toList))]) ∧
    FileNN (File.mk [] [Decl.typedef [] [] "x".toList
        (Ty.nullable [] (Ty.typeName [] "long".toList))]) :=
  ⟨rfl, C4_no_double_nullable 200 "typedef long? x;".toList
    (File.mk [] [Decl.typedef [] [] "x".toList
      (Ty.nullable [] (Ty.typeName [] "long".toList))]) rfl⟩

/-- C10: every member of a dictionary declaration in a returned tree has its
`Attribute` flag set (the `consumeMember` call from the dictionary loop
presets it) and carries no parameter list (parameters are consumed only for
non-attribute, non-const members).  Proven for every fuel by induction over
the fuel-indexed interpreter. -/
theorem C10_dictionary_member_flags : ∀ (fuel : Nat) (input : Str) (f : File),
    Parse fuel input = some f → FileDictOK f := by
  intro fuel input f h
  unfold Parse at h
  split at h
  · exact Option.noConfusion h
  next f2 st2 heq =>
  simp only [Option.some.injEq] at h
  subst h
  exact ((goodInterp fuel).consumeTopLevel _ _ _ heq).2

/-- C10 witness: `dictionary D { long x; };` parses to a dictionary whose
member has the `Attribute` flag and no parameters, though the source spells
neither. -/
theorem C10_dictionary_member_flags_witness :
    Parse 200 "dictionary D \x7b long x; \x7d;".toList =
      some (File.mk [] [Decl.dictionary [] false "D".toList [] []
        [Member.mk [] "x".toList (Ty.typeName [] "long".toList) none
          true false false false false [] [] []]]) ∧
    FileDictOK (File.mk [] [Decl.dictionary [] false "D".toList [] []
        [Member.mk [] "x".toList (Ty.typeName [] "long".toList) none
          true false false false false [] [] []]]) :=
  ⟨rfl, C10_dictionary_member_flags 200 "dictionary D \x7b long x; \x7d;".toList
    (File.mk [] [Decl.dictionary [] false "D".toList [] []
        [Member.mk [] "x".toList (Ty.typeName [] "long".toList) none
          true false false false false [] [] []]]) rfl⟩

end WebIDL
